import Mathlib

/- Verification of the deterministic area-extraction engine in
   app/services/area_extractor.py.

   Shallow embedding conventions:
   - Python floats are modelled as exact rationals (ℚ);
   - Python strings are Lean strings, lists of unicode characters;
   - the regular expressions of the module are hand-compiled into
     deterministic matchers on character lists (each matcher's doc
     comment quotes the original pattern);
   - a raised ValueError from float() is modelled as Except.error ();
   - Python dicts that the module uses (insertion-ordered) are modelled
     as association lists in insertion order. -/

set_option allowUnsafeReducibility true in
attribute [semireducible] Rat.add Rat.mul Rat.inv Rat.sub Rat.ofScientific

deriving instance DecidableEq for Except

namespace AreaExtractor

/-- Whitespace test used for str.strip and the \s regex class. -/
def isWs (c : Char) : Bool := c.isWhitespace

/-- Python str.strip on a character list. -/
def stripChars (l : List Char) : List Char :=
  ((l.dropWhile isWs).reverse.dropWhile isWs).reverse

/-- Python str.strip. -/
def pstrip (s : String) : String := String.mk (stripChars s.data)

/-- Numeric value of a list of decimal digit characters. -/
def natOfDigits (l : List Char) : ℕ :=
  l.foldl (fun a c => a * 10 + (c.toNat - 48)) 0

/-- Python float() on a token: optional sign, then digits with at most one
    decimal point and at least one digit; anything else is a ValueError
    (none).  The exotic float() inputs (exponents, inf, nan) cannot come out
    of the numeric capture groups of this module and are not modelled. -/
def floatCore (l : List Char) : Option ℚ :=
  let a := l.takeWhile Char.isDigit
  let r := l.dropWhile Char.isDigit
  match r with
  | [] => if a.isEmpty then none else some (natOfDigits a : ℚ)
  | '.' :: b =>
      if b.all Char.isDigit && !(a.isEmpty && b.isEmpty) then
        some ((natOfDigits a : ℚ) + (natOfDigits b : ℚ) / (10 : ℚ) ^ b.length)
      else none
  | _ => none

/-- Python float(s) including the strip and sign handling. -/
def floatOfChars (l : List Char) : Option ℚ :=
  match stripChars l with
  | '+' :: rest => floatCore rest
  | '-' :: rest => (floatCore rest).map Neg.neg
  | l' => floatCore l'

/-- The separator cleanup of parse_german_number: when the token contains
    both '.' and ',', every '.' is removed (thousands separator) and ','
    becomes '.'; otherwise ',' becomes '.'. -/
def germanClean (t : List Char) : List Char :=
  if t.contains '.' && t.contains ',' then
    (t.filter (fun c => c != '.')).map (fun c => if c = ',' then '.' else c)
  else
    t.map (fun c => if c = ',' then '.' else c)

/-- parse_german_number from the source: strip, clean the separators, then
    parse with float().  none models the raised ValueError. -/
def parse_german_number (s : String) : Option ℚ :=
  floatOfChars (germanClean (stripChars s.data))

/-- Round half to even on the exact rational value, modelling Python's
    round() on the values arising here. -/
def rhe (q : ℚ) : ℤ :=
  if q - ⌊q⌋ < 1/2 then ⌊q⌋
  else if (1 : ℚ)/2 < q - ⌊q⌋ then ⌊q⌋ + 1
  else if ⌊q⌋ % 2 = 0 then ⌊q⌋ else ⌊q⌋ + 1

/-- Python round(x, 2). -/
def round2 (q : ℚ) : ℚ := (rhe (q * 100) : ℚ) / 100

/-- Least k ≤ 20 such that q·10^k is an integer (all areas parsed by this
    module carry such a finite decimal expansion). -/
def decExp (q : ℚ) : Option ℕ :=
  (List.range 21).find? (fun k => (q * (10 : ℚ) ^ k).den = 1)

/-- Pad a digit string on the left with zeros up to length k. -/
def padZeros (k : ℕ) (s : String) : String :=
  String.mk (List.replicate (k - s.length) '0' ++ s.data)

/-- Python str() of a nonnegative float holding a short exact decimal:
    integer part, '.', then the fractional digits (at least one). -/
def fmtNonneg (q : ℚ) : String :=
  match decExp q with
  | some 0 => toString q.num ++ ".0"
  | some k =>
      let n := (q * (10 : ℚ) ^ k).num.toNat
      toString (n / 10 ^ k) ++ "." ++ padZeros k (toString (n % 10 ^ k))
  | none => toString q.num ++ "/" ++ toString q.den

/-- Python str() of a float (f-string interpolation of an area value). -/
def formatFloat (q : ℚ) : String :=
  if q < 0 then "-" ++ fmtNonneg (-q) else fmtNonneg q

/-- RoomCategory enum from the source. -/
inductive RoomCategory
  | OFFICE | RESIDENTIAL | CIRCULATION | STAIRS | ELEVATORS | SHAFTS
  | TECHNICAL | SANITARY | STORAGE | OUTDOOR | OTHER
deriving DecidableEq, Repr

/-- The .value string of each enum member. -/
def RoomCategory.value : RoomCategory → String
  | .OFFICE => "office"
  | .RESIDENTIAL => "residential"
  | .CIRCULATION => "circulation"
  | .STAIRS => "stairs"
  | .ELEVATORS => "elevators"
  | .SHAFTS => "shafts"
  | .TECHNICAL => "technical"
  | .SANITARY => "sanitary"
  | .STORAGE => "storage"
  | .OUTDOOR => "outdoor"
  | .OTHER => "other"

/-- ROOM_CATEGORIES keyword table, in source (insertion) order. -/
def ROOM_CATEGORIES : List (RoomCategory × List String) :=
  [ (.OFFICE, ["büro", "office", "nutzungseinheit", "back office"]),
    (.RESIDENTIAL, ["schlafen", "wohnen", "essen", "kochen", "zimmer", "küche"]),
    (.CIRCULATION, ["flur", "diele", "schleuse", "vorraum", "eingang", "lobby"]),
    (.STAIRS, ["treppe", "treppenhaus", "trh"]),
    (.ELEVATORS, ["aufzug", "lift", "aufzugsschacht", "aufzugsvorr"]),
    (.SHAFTS, ["schacht", "lüftung", "medien", "druckbelüftung"]),
    (.TECHNICAL, ["elektro", "technik", "hwr", "it verteiler", "elt", "glt", "fiz"]),
    (.SANITARY, ["wc", "bad", "dusche", "gästebad", "umkleide", "sanitär"]),
    (.STORAGE, ["lager", "abstellraum", "müll", "fahrrad"]),
    (.OUTDOOR, ["balkon", "terrasse", "loggia", "dachterrasse", "freisitz"]) ]

/-- Python str.lower for the characters of this domain (ASCII plus the
    German umlauts appearing in the keyword table). -/
def chLower (c : Char) : Char :=
  if 'A' ≤ c && c ≤ 'Z' then Char.ofNat (c.toNat + 32)
  else if c = 'Ä' then 'ä'
  else if c = 'Ö' then 'ö'
  else if c = 'Ü' then 'ü'
  else c

/-- Lowercase a character list. -/
def lowerChars (l : List Char) : List Char := l.map chLower

/-- Prefix test on character lists. -/
def isPre : List Char → List Char → Bool
  | [], _ => true
  | _ :: _, [] => false
  | a :: as, b :: bs => a == b && isPre as bs

/-- Python `needle in hay` substring test. -/
def containsSub (needle : List Char) : List Char → Bool
  | [] => isPre needle []
  | c :: rest => isPre needle (c :: rest) || containsSub needle rest

/-- categorize_room: first category (in table order) one of whose keywords
    is a substring of the lowercased name; OTHER when none matches. -/
def categorize_room (room_name : String) : RoomCategory :=
  let n := lowerChars room_name.data
  match ROOM_CATEGORIES.find? (fun p => p.2.any (fun kw => containsSub kw.data n)) with
  | some p => p.1
  | none => RoomCategory.OTHER

/-- is_outdoor_room from the source. -/
def is_outdoor_room (room_name : String) : Bool :=
  categorize_room room_name == RoomCategory.OUTDOOR

/-- BoundingBox (provenance only; never set by the line extractors). -/
structure BoundingBox where
  x0 : ℚ
  y0 : ℚ
  x1 : ℚ
  y1 : ℚ
deriving DecidableEq, Repr

/-- ExtractedRoom dataclass from the source. -/
structure ExtractedRoom where
  room_number : String
  room_name : String
  area_m2 : ℚ
  counted_m2 : ℚ
  factor : ℚ
  page : ℕ
  source_text : String
  bbox : Option BoundingBox := none
  category : RoomCategory := RoomCategory.OTHER
  perimeter_m : Option ℚ := none
  height_m : Option ℚ := none
  factor_source : Option String := none
  extraction_pattern : String := ""
deriving DecidableEq, Repr

/-! Hand-compiled regular expression matchers.  Each matcher consumes a
    character list from the front (re.match semantics) and either fails or
    returns the unconsumed rest; capturing variants return the captured
    characters.  All the patterns of the source are deterministic: every
    greedy sub-pattern is delimited by characters outside its class, so no
    backtracking into a completed sub-match is ever needed, except for
    explicit alternation fallback which is compiled explicitly. -/

/-- Swap the case of a letter of this domain (for re.IGNORECASE). -/
def altCase (c : Char) : Char :=
  if 'a' ≤ c && c ≤ 'z' then Char.ofNat (c.toNat - 32)
  else if 'A' ≤ c && c ≤ 'Z' then Char.ofNat (c.toNat + 32)
  else if c = 'ä' then 'Ä' else if c = 'Ä' then 'ä'
  else if c = 'ö' then 'Ö' else if c = 'Ö' then 'ö'
  else if c = 'ü' then 'Ü' else if c = 'Ü' then 'ü'
  else c

/-- One literal character; with ci also its other case. -/
def eatCh (ci : Bool) (target : Char) : List Char → Option (List Char)
  | [] => none
  | c :: rest => if c == target || (ci && c == altCase target) then some rest else none

/-- A literal character sequence. -/
def eatLit (ci : Bool) : List Char → List Char → Option (List Char)
  | [], l => some l
  | p :: ps, l => (eatCh ci p l).bind (eatLit ci ps)

/-- One character of a class. -/
def eatCls (p : Char → Bool) : List Char → Option (List Char)
  | [] => none
  | c :: rest => if p c then some rest else none

/-- The \s* pattern. -/
def eatWs (l : List Char) : List Char := l.dropWhile isWs

/-- Greedy one-or-more characters of a class. -/
def eatMany1 (p : Char → Bool) (l : List Char) : Option (List Char) :=
  if (l.takeWhile p).isEmpty then none else some (l.dropWhile p)

/-- Greedy one-or-more characters of a class, returning the consumed span. -/
def capMany1 (p : Char → Bool) (l : List Char) : Option (List Char × List Char) :=
  if (l.takeWhile p).isEmpty then none else some (l.takeWhile p, l.dropWhile p)

/-- Greedy one-or-more repetitions of a sub-matcher (fuel-bounded; every
    sub-matcher used with it consumes at least one character). -/
def eatRep1 (step : List Char → Option (List Char)) : ℕ → List Char → Option (List Char)
  | 0, _ => none
  | fuel + 1, l =>
    match step l with
    | none => none
    | some r =>
      match eatRep1 step fuel r with
      | some r2 => some r2
      | none => some r

/-- Character classes used by the patterns. -/
def isDigitComma (c : Char) : Bool := c.isDigit || c == ','

/-- The [\d.,] class. -/
def isDigitDotComma (c : Char) : Bool := c.isDigit || c == '.' || c == ','

/-- The [A-Z] class. -/
def isUpper (c : Char) : Bool := 'A' ≤ c && c ≤ 'Z'

/-- The [a-z] class. -/
def isLower (c : Char) : Bool := 'a' ≤ c && c ≤ 'z'

/-- The [A-Z0-9] class. -/
def isUpperDigit (c : Char) : Bool := isUpper c || c.isDigit

/-- The \s*m[²2]? unit tail shared by the area patterns ('m' is required,
    the superscript optional; ci reflects re.IGNORECASE on the pattern). -/
def eatAreaUnit (ci : Bool) (l : List Char) : Option (List Char) :=
  match eatCh ci 'm' (eatWs l) with
  | none => none
  | some r => some (((eatCh false '²' r).orElse (fun _ => eatCh false '2' r)).getD r)

/-! Haardtring patterns. -/

/-- Room pattern R\d+\.E\d+\.\d+\.\d+ (capture = consumed prefix). -/
def hAnchor1 (l : List Char) : Option (List Char) := do
  let r ← eatCh false 'R' l
  let r ← eatMany1 Char.isDigit r
  let r ← eatCh false '.' r
  let r ← eatCh false 'E' r
  let r ← eatMany1 Char.isDigit r
  let r ← eatCh false '.' r
  let r ← eatMany1 Char.isDigit r
  let r ← eatCh false '.' r
  let r ← eatMany1 Char.isDigit r
  some (l.take (l.length - r.length))

/-- Room pattern R\d+[A-Z]. -/
def hAnchor2 (l : List Char) : Option (List Char) := do
  let r ← eatCh false 'R' l
  let r ← eatMany1 Char.isDigit r
  let r ← eatCls isUpper r
  some (l.take (l.length - r.length))

/-- The (?:\.\d+) group of the apartment pattern. -/
def eatDotDigits1 (l : List Char) : Option (List Char) := do
  let r ← eatCh false '.' l
  eatMany1 Char.isDigit r

/-- Room pattern E\.[A-Z0-9]+(?:\.\d+)+. -/
def hAnchor3 (l : List Char) : Option (List Char) := do
  let r ← eatLit false ['E', '.'] l
  let r ← eatMany1 isUpperDigit r
  let r ← eatRep1 eatDotDigits1 (r.length + 1) r
  some (l.take (l.length - r.length))

/-- Haardtring anchor: the three room patterns tried in source order,
    returning the capture used as room_number. -/
def hAnchor (l : List Char) : Option String :=
  match hAnchor1 l with
  | some c => some (String.mk c)
  | none =>
    match hAnchor2 l with
    | some c => some (String.mk c)
    | none => (hAnchor3 l).map String.mk

/-- Name-line exclusion ^(F:|BA:|B:|W:|D:|[\d,]+). -/
def hNameExcluded (l : List Char) : Bool :=
  (eatLit false ['F', ':'] l).isSome || (eatLit false ['B', 'A', ':'] l).isSome ||
  (eatLit false ['B', ':'] l).isSome || (eatLit false ['W', ':'] l).isSome ||
  (eatLit false ['D', ':'] l).isSome || (eatMany1 isDigitComma l).isSome

/-- Inline area ^F:\s*([\d,]+)\s*m[²2]? with re.IGNORECASE. -/
def hInline (l : List Char) : Option (List Char) := do
  let r ← eatLit true ['F', ':'] l
  let (cap, r) ← capMany1 isDigitComma (eatWs r)
  let _ ← eatAreaUnit true r
  some cap

/-- Balcony override ^50%:\s*([\d,]+)\s*m[²2]? (no flag). -/
def hBalcony (l : List Char) : Option (List Char) := do
  let r ← eatLit false ['5', '0', '%', ':'] l
  let (cap, r) ← capMany1 isDigitComma (eatWs r)
  let _ ← eatAreaUnit false r
  some cap

/-- Split-area value line ^([\d,]+)\s*m[²2]? (no flag). -/
def hValue (l : List Char) : Option (List Char) := do
  let (cap, r) ← capMany1 isDigitComma l
  let _ ← eatAreaUnit false r
  some cap

/-- Lookahead stop test of extract_haardtring: ^R\d+\.E\d+\.\d+\.\d+ or
    ^R\d+[A-Z]$ (note the $: the whole line) or ^E\.[A-Z0-9]+(?:\.\d+)+. -/
def hStopSimple (l : List Char) : Bool :=
  match (do
    let r ← eatCh false 'R' l
    let r ← eatMany1 Char.isDigit r
    eatCls isUpper r : Option (List Char)) with
  | some [] => true
  | _ => false

/-- hStop: the three next-room patterns of the haardtring lookahead. -/
def hStop (l : List Char) : Bool :=
  (hAnchor1 l).isSome || hStopSimple l || (hAnchor3 l).isSome

/-! The haardtring extractor. -/

/-- Result of the haardtring area lookahead. -/
structure HFound where
  area : ℚ
  balcony : Option ℚ
deriving DecidableEq, Repr

/-- parse_german_number with the ValueError escalated, as in the style
    extractors (which have no try/except around it). -/
def exceptOfParse (cap : List Char) : Except Unit ℚ :=
  match parse_german_number (String.mk cap) with
  | some a => .ok a
  | none => .error ()

/-- The 50% balcony check one line after a matched area value. -/
def hBalconyAt (lines : List String) (k : ℕ) : Except Unit (Option ℚ) :=
  match lines.get? k with
  | none => .ok none
  | some raw =>
    match hBalcony (pstrip raw).data with
    | some cap =>
      match exceptOfParse cap with
      | .ok b => .ok (some b)
      | .error e => .error e
    | none => .ok none

/-- The bounded lookahead of extract_haardtring
    (for j in range(i+1, min(len(lines), i+15))); fuel is the number of
    remaining window lines, j the current index. -/
def hFindArea (lines : List String) : ℕ → ℕ → Except Unit (Option HFound)
  | 0, _ => .ok none
  | fuel + 1, j =>
    match lines.get? j with
    | none => .ok none
    | some raw =>
      let curr := pstrip raw
      match hInline curr.data with
      | some cap =>
        (match exceptOfParse cap with
         | .error e => .error e
         | .ok a =>
           match hBalconyAt lines (j + 1) with
           | .error e => .error e
           | .ok b => .ok (some ⟨a, b⟩))
      | none =>
        match (if curr = "F:" then
                 match lines.get? (j + 1) with
                 | some nxt => hValue (pstrip nxt).data
                 | none => none
               else none) with
        | some cap =>
          (match exceptOfParse cap with
           | .error e => .error e
           | .ok a =>
             match hBalconyAt lines (j + 2) with
             | .error e => .error e
             | .ok b => .ok (some ⟨a, b⟩))
        | none =>
          if hStop curr.data then .ok none
          else hFindArea lines fuel (j + 1)

/-- Room-name candidate: the line after the anchor if nonempty and not a
    label/metadata line. -/
def hName (lines : List String) (k : ℕ) : Option String :=
  match lines.get? k with
  | none => none
  | some raw =>
    let nl := pstrip raw
    if nl != "" && !hNameExcluded nl.data then some nl else none

/-- Python truthiness of an optional float. -/
def pyTruthyQ : Option ℚ → Bool
  | none => false
  | some x => decide (x ≠ 0)

/-- Python truthiness of an optional string. -/
def pyTruthyS : Option String → Bool
  | none => false
  | some s => s != ""

/-- Room construction of extract_haardtring including the counting-factor
    policy (explicit 50% override, default outdoor, else factor 1). -/
def hMkRoom (num : String) (name : Option String) (f : HFound) (page : ℕ) : ExtractedRoom :=
  if pyTruthyQ f.balcony then
    { room_number := num, room_name := name.getD "Unknown", area_m2 := f.area,
      counted_m2 := f.balcony.getD 0, factor := 1/2, page := page,
      source_text := "F: " ++ formatFloat f.area,
      category := categorize_room (name.getD ""),
      factor_source := some "explicit_50%", extraction_pattern := "F:" }
  else if pyTruthyS name && is_outdoor_room (name.getD "") then
    { room_number := num, room_name := name.getD "Unknown", area_m2 := f.area,
      counted_m2 := round2 (f.area * (1/2)), factor := 1/2, page := page,
      source_text := "F: " ++ formatFloat f.area,
      category := categorize_room (name.getD ""),
      factor_source := some "default_outdoor", extraction_pattern := "F:" }
  else
    { room_number := num, room_name := name.getD "Unknown", area_m2 := f.area,
      counted_m2 := f.area, factor := 1, page := page,
      source_text := "F: " ++ formatFloat f.area,
      category := categorize_room (name.getD ""),
      factor_source := none, extraction_pattern := "F:" }

/-- Main scan loop of extract_haardtring (i advances by one each step;
    fuel = lines.length - i). -/
def hGo (lines : List String) (page : ℕ) : ℕ → ℕ → Except Unit (List ExtractedRoom)
  | 0, _ => .ok []
  | fuel + 1, i =>
    match lines.get? i with
    | none => .ok []
    | some raw =>
      match hAnchor (pstrip raw).data with
      | some num =>
        (match hFindArea lines (min lines.length (i + 15) - (i + 1)) (i + 1) with
         | .error e => .error e
         | .ok found =>
           match hGo lines page fuel (i + 1) with
           | .error e => .error e
           | .ok rest =>
             match found with
             | some f =>
               if decide (f.area ≠ 0) then
                 .ok (hMkRoom num (hName lines (i + 1)) f page :: rest)
               else .ok rest
             | none => .ok rest)
      | none => hGo lines page fuel (i + 1)

/-- extract_haardtring from the source. -/
def extract_haardtring (lines : List String) (page : ℕ) : Except Unit (List ExtractedRoom) :=
  hGo lines page lines.length 0

/-! LeiQ patterns. -/

/-- Word character for the \b boundary: Python \w over the characters of
    this domain (ASCII alphanumerics, underscore, German letters, and the
    superscript two, which str.isalnum accepts). -/
def isWordChar (c : Char) : Bool :=
  c.isAlphanum || c == '_' || c == 'ä' || c == 'ö' || c == 'ü' ||
  c == 'Ä' || c == 'Ö' || c == 'Ü' || c == 'ß' || c == '²'

/-- Word boundary after a match: the next character, if any, is non-word. -/
def bAfter : List Char → Bool
  | [] => true
  | c :: _ => !isWordChar c

/-- The [=:] class. -/
def eatEqColon (l : List Char) : Option (List Char) :=
  eatCls (fun c => c == '=' || c == ':') l

/-- The [A-Z]?\d+ part of the LeiQ room pattern, with the optional
    letter retried empty when the digits do not follow. -/
def lOptUpperDigits (r : List Char) : Option (List Char) :=
  match eatCls isUpper r with
  | some r2 =>
    (match eatMany1 Char.isDigit r2 with
     | some r3 => some r3
     | none => eatMany1 Char.isDigit r)
  | none => eatMany1 Char.isDigit r

/-- The (?:-[A-Z])? optional suffix. -/
def lOptSuffix (r : List Char) : List Char :=
  match (do let a ← eatCh false '-' r; eatCls isUpper a : Option (List Char)) with
  | some r2 => r2
  | none => r

/-- LeiQ room pattern ^(B\.\d+\.[0-9A-Z]+\.[A-Z]?\d+(?:-[A-Z])?). -/
def lAnchor (l : List Char) : Option (List Char) := do
  let r ← eatLit false ['B', '.'] l
  let r ← eatMany1 Char.isDigit r
  let r ← eatCh false '.' r
  let r ← eatMany1 isUpperDigit r
  let r ← eatCh false '.' r
  let r ← lOptUpperDigits r
  let r := lOptSuffix r
  some (l.take (l.length - r.length))

/-- LeiQ name-line exclusion ^(NRF|F[=:]|U[=:]|LH[=:]|LRH[=:]|B\.|[\d,]+)
    with re.IGNORECASE. -/
def lNameExcluded (l : List Char) : Bool :=
  (eatLit true ['N', 'R', 'F'] l).isSome ||
  (match eatCh true 'F' l with | some r => (eatEqColon r).isSome | none => false) ||
  (match eatCh true 'U' l with | some r => (eatEqColon r).isSome | none => false) ||
  (match eatLit true ['L', 'H'] l with | some r => (eatEqColon r).isSome | none => false) ||
  (match eatLit true ['L', 'R', 'H'] l with | some r => (eatEqColon r).isSome | none => false) ||
  (eatLit true ['B', '.'] l).isSome ||
  (eatMany1 isDigitComma l).isSome

/-- Modern area ^NRF[=:]\s*([\d.,]+)\s*m[²2]? with re.IGNORECASE. -/
def lNrf (l : List Char) : Option (List Char) := do
  let r ← eatLit true ['N', 'R', 'F'] l
  let r ← eatEqColon r
  let (cap, r) ← capMany1 isDigitDotComma (eatWs r)
  let _ ← eatAreaUnit true r
  some cap

/-- Legacy area ^F[=:]\s*([\d.,]+)\s*m[²2]? with re.IGNORECASE. -/
def lF (l : List Char) : Option (List Char) := do
  let r ← eatCh true 'F' l
  let r ← eatEqColon r
  let (cap, r) ← capMany1 isDigitDotComma (eatWs r)
  let _ ← eatAreaUnit true r
  some cap

/-- Split-area value line ^([\d.,]+)\s*m[²2]? (no flag). -/
def lValue (l : List Char) : Option (List Char) := do
  let (cap, r) ← capMany1 isDigitDotComma l
  let _ ← eatAreaUnit false r
  some cap

/-- Perimeter ^U[=:]\s*([\d.,]+)\s*m\b with re.IGNORECASE. -/
def lU (l : List Char) : Option (List Char) := do
  let r ← eatCh true 'U' l
  let r ← eatEqColon r
  let (cap, r) ← capMany1 isDigitDotComma (eatWs r)
  let r ← eatCh true 'm' (eatWs r)
  if bAfter r then some cap else none

/-- Height ^L(?:R)?H[=:]\s*([\d.,]+)\s*m\b with re.IGNORECASE. -/
def lLH (l : List Char) : Option (List Char) := do
  let r ← eatCh true 'L' l
  let r ← (match (do let a ← eatCh true 'R' r; eatCh true 'H' a : Option (List Char)) with
           | some r2 => some r2
           | none => eatCh true 'H' r)
  let r ← eatEqColon r
  let (cap, r) ← capMany1 isDigitDotComma (eatWs r)
  let r ← eatCh true 'm' (eatWs r)
  if bAfter r then some cap else none

/-! The LeiQ extractor. -/

/-- Mutable state of the LeiQ metadata lookahead. -/
structure LState where
  area : Option ℚ
  patternUsed : Option String
  perimeter : Option ℚ
  height : Option ℚ
deriving DecidableEq, Repr

/-- The exact split tokens ('NRF:', 'NRF=', 'F:', 'F=') — case sensitive. -/
def splitTokens : List String := ["NRF:", "NRF=", "F:", "F="]

/-- Value of the split-across-lines form: the current line is exactly one
    of the split tokens and the next line carries the value. -/
def lSplitValue (lines : List String) (j : ℕ) (curr : String) : Option (List Char) :=
  if splitTokens.contains curr then
    match lines.get? (j + 1) with
    | some nxt => lValue (pstrip nxt).data
    | none => none
  else none

/-- The bounded metadata lookahead of extract_leiq: collects area (first
    match wins), perimeter and height, stopping at the next room anchor. -/
def lLoop (lines : List String) : ℕ → ℕ → LState → Except Unit LState
  | 0, _, st => .ok st
  | fuel + 1, j, st =>
    match lines.get? j with
    | none => .ok st
    | some raw =>
      let curr := pstrip raw
      if (lNrf curr.data).isSome && st.area.isNone then
        match exceptOfParse ((lNrf curr.data).getD []) with
        | .error e => .error e
        | .ok a => lLoop lines fuel (j + 1) { st with area := some a, patternUsed := some "NRF:" }
      else if (lF curr.data).isSome && st.area.isNone then
        match exceptOfParse ((lF curr.data).getD []) with
        | .error e => .error e
        | .ok a => lLoop lines fuel (j + 1) { st with area := some a, patternUsed := some "F=" }
      else if (lSplitValue lines j curr).isSome && st.area.isNone then
        match exceptOfParse ((lSplitValue lines j curr).getD []) with
        | .error e => .error e
        | .ok a => lLoop lines fuel (j + 1) { st with area := some a, patternUsed := some curr }
      else if (lU curr.data).isSome then
        match exceptOfParse ((lU curr.data).getD []) with
        | .error e => .error e
        | .ok p => lLoop lines fuel (j + 1) { st with perimeter := some p }
      else if (lLH curr.data).isSome then
        match exceptOfParse ((lLH curr.data).getD []) with
        | .error e => .error e
        | .ok hh => lLoop lines fuel (j + 1) { st with height := some hh }
      else if (lAnchor curr.data).isSome then .ok st
      else lLoop lines fuel (j + 1) st

/-- LeiQ room-name candidate line. -/
def lName (lines : List String) (k : ℕ) : Option String :=
  match lines.get? k with
  | none => none
  | some raw =>
    let nl := pstrip raw
    if nl != "" && !lNameExcluded nl.data then some nl else none

/-- Room construction of extract_leiq (factor always 1.0). -/
def lMkRoom (num : String) (name : Option String) (st : LState) (a : ℚ) (page : ℕ) :
    ExtractedRoom :=
  { room_number := num, room_name := name.getD "Unknown", area_m2 := a,
    counted_m2 := a, factor := 1, page := page,
    source_text := (st.patternUsed.getD "NRF:") ++ " " ++ formatFloat a,
    category := categorize_room (name.getD ""),
    perimeter_m := st.perimeter, height_m := st.height,
    extraction_pattern := st.patternUsed.getD "NRF:" }

/-- Main scan loop of extract_leiq. -/
def lGo (lines : List String) (page : ℕ) : ℕ → ℕ → Except Unit (List ExtractedRoom)
  | 0, _ => .ok []
  | fuel + 1, i =>
    match lines.get? i with
    | none => .ok []
    | some raw =>
      match lAnchor (pstrip raw).data with
      | some numCap =>
        (match lLoop lines (min lines.length (i + 15) - (i + 1)) (i + 1) ⟨none, none, none, none⟩ with
         | .error e => .error e
         | .ok st =>
           match lGo lines page fuel (i + 1) with
           | .error e => .error e
           | .ok rest =>
             match st.area with
             | some a =>
               if decide (a ≠ 0) then
                 .ok (lMkRoom (String.mk numCap) (lName lines (i + 1)) st a page :: rest)
               else .ok rest
             | none => .ok rest)
      | none => lGo lines page fuel (i + 1)

/-- extract_leiq from the source. -/
def extract_leiq (lines : List String) (page : ℕ) : Except Unit (List ExtractedRoom) :=
  lGo lines page lines.length 0

/-! Omniturm patterns. -/

/-- Grid room pattern \d+_[a-z]\d+\.\d+. -/
def oGrid (l : List Char) : Option (List Char) := do
  let r ← eatMany1 Char.isDigit l
  let r ← eatCh false '_' r
  let r ← eatCls isLower r
  let r ← eatMany1 Char.isDigit r
  let r ← eatCh false '.' r
  eatMany1 Char.isDigit r

/-- BT room pattern BT\d+\.[A-Z]+\.\d+. -/
def oBT (l : List Char) : Option (List Char) := do
  let r ← eatLit false ['B', 'T'] l
  let r ← eatMany1 Char.isDigit r
  let r ← eatCh false '.' r
  let r ← eatMany1 isUpper r
  let r ← eatCh false '.' r
  eatMany1 Char.isDigit r

/-- Omniturm anchor ^(\d+_[a-z]\d+\.\d+|BT\d+\.[A-Z]+\.\d+). -/
def oAnchorB (l : List Char) : Bool := (oGrid l).isSome || (oBT l).isSome

/-- Omniturm name-line exclusion
    ^(NGF|UKRD|UKFD|OKFF|OKRF|LRH|[\d,]+\s*m|Schacht) (no flag). -/
def oNameExcluded (l : List Char) : Bool :=
  (eatLit false ['N', 'G', 'F'] l).isSome ||
  (eatLit false ['U', 'K', 'R', 'D'] l).isSome ||
  (eatLit false ['U', 'K', 'F', 'D'] l).isSome ||
  (eatLit false ['O', 'K', 'F', 'F'] l).isSome ||
  (eatLit false ['O', 'K', 'R', 'F'] l).isSome ||
  (eatLit false ['L', 'R', 'H'] l).isSome ||
  (match capMany1 isDigitComma l with
   | some (_, r) => (eatCh false 'm' (eatWs r)).isSome
   | none => false) ||
  (eatLit false ['S', 'c', 'h', 'a', 'c', 'h', 't'] l).isSome

/-- Area ^NGF:\s*([\d.,]+)\s*m[²2]? with re.IGNORECASE. -/
def oNgf (l : List Char) : Option (List Char) := do
  let r ← eatLit true ['N', 'G', 'F', ':'] l
  let (cap, r) ← capMany1 isDigitDotComma (eatWs r)
  let _ ← eatAreaUnit true r
  some cap

/-- Shaft pattern ^(Schacht \d+) (no flag; the literal used at the call
    site, not the IGNORECASE one of the unused PATTERNS table). -/
def oSchacht (l : List Char) : Option (List Char) := do
  let r ← eatLit false ['S', 'c', 'h', 'a', 'c', 'h', 't', ' '] l
  let r ← eatMany1 Char.isDigit r
  some (l.take (l.length - r.length))

/-- First-character test ^[\d,] on the shaft type line. -/
def oTypeDigit (l : List Char) : Bool := (eatCls isDigitComma l).isSome

/-- The bounded lookahead of extract_omniturm, carrying the room-name
    state; returns (final name state, found area). -/
def oLoop (lines : List String) : ℕ → ℕ → Option String → Except Unit (Option String × Option ℚ)
  | 0, _, nm => .ok (nm, none)
  | fuel + 1, j, nm =>
    match lines.get? j with
    | none => .ok (nm, none)
    | some raw =>
      let curr := pstrip raw
      if oAnchorB curr.data then .ok (nm, none)
      else
        let nm1 := if nm.isNone && curr != "" && !oNameExcluded curr.data then some curr else nm
        match oNgf curr.data with
        | some cap =>
          (match exceptOfParse cap with
           | .error e => .error e
           | .ok a => .ok (nm1, some a))
        | none =>
          match (if curr = "NGF:" then
                   match lines.get? (j + 1) with
                   | some nxt => lValue (pstrip nxt).data
                   | none => none
                 else none) with
          | some cap =>
            (match exceptOfParse cap with
             | .error e => .error e
             | .ok a => .ok (nm1, some a))
          | none =>
            match oSchacht curr.data with
            | some g1 =>
              (match lines.get? (j + 2) with
               | some areaRaw =>
                 let typeLine := pstrip ((lines.get? (j + 1)).getD "")
                 let nm3 := if !oTypeDigit typeLine.data
                            then some (String.mk g1 ++ " (" ++ typeLine ++ ")")
                            else some (String.mk g1)
                 (match hValue (pstrip areaRaw).data with
                  | some cap =>
                    (match exceptOfParse cap with
                     | .error e => .error e
                     | .ok a => .ok (nm3, some a))
                  | none => oLoop lines fuel (j + 1) nm3)
               | none => oLoop lines fuel (j + 1) (some (String.mk g1)))
            | none => oLoop lines fuel (j + 1) nm1

/-- Room construction of extract_omniturm (factor always 1.0). -/
def oMkRoom (num : String) (nm : Option String) (a : ℚ) (page : ℕ) : ExtractedRoom :=
  { room_number := num, room_name := nm.getD "Unknown", area_m2 := a,
    counted_m2 := a, factor := 1, page := page,
    source_text := "NGF: " ++ formatFloat a,
    category := categorize_room (nm.getD ""),
    extraction_pattern := "NGF:" }

/-- Main scan loop of extract_omniturm; processed is the per-page
    visited-identifier set (room_number is the whole stripped line). -/
def oGo (lines : List String) (page : ℕ) : ℕ → ℕ → List String → Except Unit (List ExtractedRoom)
  | 0, _, _ => .ok []
  | fuel + 1, i, processed =>
    match lines.get? i with
    | none => .ok []
    | some raw =>
      let line := pstrip raw
      if oAnchorB line.data && !processed.contains line then
        match oLoop lines (min lines.length (i + 15) - (i + 1)) (i + 1) none with
        | .error e => .error e
        | .ok (nm, areaOpt) =>
          match areaOpt with
          | some a =>
            if decide (a ≠ 0) then
              match oGo lines page fuel (i + 1) (line :: processed) with
              | .error e => .error e
              | .ok rest => .ok (oMkRoom line nm a page :: rest)
            else oGo lines page fuel (i + 1) processed
          | none => oGo lines page fuel (i + 1) processed
      else oGo lines page fuel (i + 1) processed

/-- extract_omniturm from the source. -/
def extract_omniturm (lines : List String) (page : ℕ) : Except Unit (List ExtractedRoom) :=
  oGo lines page lines.length 0 []

/-! Flexible (generic) patterns. -/

/-- The [A-Za-z] class ([A-Z] under re.IGNORECASE). -/
def isAsciiAlpha (c : Char) : Bool := isUpper c || isLower c

/-- The [A-Za-z0-9] class ([A-Z0-9] under re.IGNORECASE). -/
def isAlnumAscii (c : Char) : Bool := isAsciiAlpha c || c.isDigit

/-- The [\._] class. -/
def eatDotUnd (l : List Char) : Option (List Char) :=
  eatCls (fun c => c == '.' || c == '_') l

/-- Exactly three digits (\d«3»), further digits left unconsumed. -/
def eatDigit3 (l : List Char) : Option (List Char) := do
  let r ← eatCls Char.isDigit l
  let r ← eatCls Char.isDigit r
  eatCls Char.isDigit r

/-- re.search: try the matcher at every start position, leftmost first. -/
def searchPos (m : List Char → Option (List Char)) : List Char → Option (List Char)
  | [] => m []
  | c :: rest =>
    match m (c :: rest) with
    | some cap => some cap
    | none => searchPos m rest

/-- Label alternatives of FLEXIBLE_AREA_PATTERNS[0], in pattern order. -/
def gAlt1 : List (List Char) :=
  [['N', 'R', 'F'], ['N', 'G', 'F'], ['B', 'G', 'F'], "Fläche".data,
   ['F', 'l'], ['F', 'L'], ['G', 'F'], ['W', 'F'], ['N', 'F']]

/-- FLEXIBLE_AREA_PATTERNS[0] at one position:
    (?:NRF|NGF|BGF|Fläche|Fl|FL|GF|WF|NF)\s*[=:]\s*([\d.,]+)\s*m[²2]?
    with re.IGNORECASE (used with .search). -/
def gP1At (l : List Char) : Option (List Char) :=
  gAlt1.findSome? (fun alt => do
    let r ← eatLit true alt l
    let r ← eatEqColon (eatWs r)
    let (cap, r) ← capMany1 isDigitDotComma (eatWs r)
    let _ ← eatAreaUnit true r
    some cap)

/-- FLEXIBLE_AREA_PATTERNS[1]: ^F\s*[=:]\s*([\d.,]+)\s*m[²2]? with
    re.IGNORECASE (anchored .match-style search). -/
def gP2 (l : List Char) : Option (List Char) := do
  let r ← eatCh true 'F' l
  let r ← eatEqColon (eatWs r)
  let (cap, r) ← capMany1 isDigitDotComma (eatWs r)
  let _ ← eatAreaUnit true r
  some cap

/-- Label alternatives of FLEXIBLE_AREA_PATTERNS[2]. -/
def gAlt3 : List (List Char) := [['N', 'R', 'F'], ['N', 'G', 'F'], "Fläche".data]

/-- FLEXIBLE_AREA_PATTERNS[2] at one position:
    (?:NRF|NGF|Fläche)\s*[=:]\s*([\d.,]+)\s*qm\b with re.IGNORECASE. -/
def gP3At (l : List Char) : Option (List Char) :=
  gAlt3.findSome? (fun alt => do
    let r ← eatLit true alt l
    let r ← eatEqColon (eatWs r)
    let (cap, r) ← capMany1 isDigitDotComma (eatWs r)
    let r ← eatLit true ['q', 'm'] (eatWs r)
    if bAfter r then some cap else none)

/-- First matching flexible area pattern with its capture and the
    pattern.pattern[:30] provenance prefix recorded by the source. -/
def gAreaMatch (l : List Char) : Option (List Char × String) :=
  match searchPos gP1At l with
  | some cap => some (cap, "(?:NRF|NGF|BGF|Fläche|Fl|FL|GF")
  | none =>
    match gP2 l with
    | some cap => some (cap, "^F\\s*[=:]\\s*([\\d.,]+)\\s*m[²2]?")
    | none =>
      match searchPos gP3At l with
      | some cap => some (cap, "(?:NRF|NGF|Fläche)\\s*[=:]\\s*([")
      | none => none

/-- FLEXIBLE_ROOM_PATTERNS[0]:
    ^([A-Z]+\d*[\._][A-Z0-9]+[\._][A-Z0-9]+[\._][A-Z0-9]+) with
    re.IGNORECASE. -/
def gR1 (l : List Char) : Option (List Char) := do
  let r ← eatMany1 isAsciiAlpha l
  let r := (eatMany1 Char.isDigit r).getD r
  let r ← eatDotUnd r
  let r ← eatMany1 isAlnumAscii r
  let r ← eatDotUnd r
  let r ← eatMany1 isAlnumAscii r
  let r ← eatDotUnd r
  let r ← eatMany1 isAlnumAscii r
  some (l.take (l.length - r.length))

/-- FLEXIBLE_ROOM_PATTERNS[1]: ^(\d+_[a-z]\d+\.\d+) (no flag). -/
def gR2 (l : List Char) : Option (List Char) :=
  (oGrid l).map (fun r => l.take (l.length - r.length))

/-- FLEXIBLE_ROOM_PATTERNS[2]: ^([EOU]G\d*[\._]\d«3») with re.IGNORECASE. -/
def gR3 (l : List Char) : Option (List Char) := do
  let r ← eatCls (fun c => c == 'E' || c == 'O' || c == 'U' ||
                           c == 'e' || c == 'o' || c == 'u') l
  let r ← eatCh true 'G' r
  let r := (eatMany1 Char.isDigit r).getD r
  let r ← eatDotUnd r
  let r ← eatDigit3 r
  some (l.take (l.length - r.length))

/-- FLEXIBLE_ROOM_PATTERNS[3]: ^([A-Z][\._]\d«3») with re.IGNORECASE. -/
def gR4 (l : List Char) : Option (List Char) := do
  let r ← eatCls isAsciiAlpha l
  let r ← eatDotUnd r
  let r ← eatDigit3 r
  some (l.take (l.length - r.length))

/-- First matching flexible room pattern (source order), capture as id. -/
def gRoomMatch (l : List Char) : Option String :=
  match gR1 l with
  | some c => some (String.mk c)
  | none =>
    match gR2 l with
    | some c => some (String.mk c)
    | none =>
      match gR3 l with
      | some c => some (String.mk c)
      | none => (gR4 l).map String.mk

/-! The generic extractor. -/

/-- One entry of found_areas in pass one of extract_generic. -/
structure AreaInfo where
  line_idx : ℕ
  area : ℚ
  source_line : String
  pattern : String
deriving DecidableEq, Repr

/-- Pass one: all plausible area matches (value within [0.5, 10000]);
    a ValueError from the parse is caught and the line skipped. -/
def findAreas (lines : List String) : List AreaInfo :=
  lines.enum.filterMap (fun p =>
    let line := pstrip p.2
    match gAreaMatch line.data with
    | some capPat =>
      (match parse_german_number (String.mk capPat.1) with
       | some a =>
         if (1 : ℚ)/2 ≤ a ∧ a ≤ 10000 then some ⟨p.1, a, line, capPat.2⟩ else none
       | none => none)
    | none => none)

/-- Pass two: first line index of each distinct room identifier, in
    discovery order (insertion-ordered dict). -/
def findIds (lines : List String) : List (String × ℕ) :=
  lines.enum.foldl (fun acc p =>
    match gRoomMatch (pstrip p.2).data with
    | some rid => if acc.any (fun q => q.1 == rid) then acc else acc ++ [(rid, p.1)]
    | none => acc) []

/-- Distance between an area line and a room line, with the 0.5 bonus for
    areas after the identifier. -/
def gDist (aIdx rIdx : ℕ) : ℚ :=
  let d : ℚ := |(aIdx : ℚ) - (rIdx : ℚ)|
  if rIdx < aIdx then d - 1/2 else d

/-- The strict `distance < best_distance` test against the running best
    (an absent best is infinity). -/
def gBetter (best : Option (ℚ × ℕ)) (d : ℚ) : Bool :=
  match best with
  | none => true
  | some bd => decide (d < bd.1)

/-- The best-area loop of pass three: over the areas (k is the running
    index), skipping used ones, keeping the strictly closest with
    distance < 15. -/
def findBestGo (used : List ℕ) (rIdx : ℕ) : List AreaInfo → ℕ → Option (ℚ × ℕ) → Option (ℚ × ℕ)
  | [], _, best => best
  | a :: rest, k, best =>
    if used.contains k then findBestGo used rIdx rest (k + 1) best
    else
      if gBetter best (gDist a.line_idx rIdx) && decide (gDist a.line_idx rIdx < 15) then
        findBestGo used rIdx rest (k + 1) (some (gDist a.line_idx rIdx, k))
      else findBestGo used rIdx rest (k + 1) best

/-- Full-match test ^[\d,.\s]+$. -/
def gNameNumOnly (l : List Char) : Bool :=
  !l.isEmpty && l.all (fun c => c.isDigit || c == ',' || c == '.' || isWs c)

/-- Label alternatives of the generic name-exclusion pattern. -/
def gLabelAlts : List (List Char) :=
  [['N', 'R', 'F'], ['N', 'G', 'F'], ['F'], ['U'], ['L', 'H'], ['B', 'A'],
   ['B'], ['W'], ['D'], ['O', 'K'], ['U', 'K'], ['U', 'K', 'R', 'D'], ['O', 'K', 'F', 'F']]

/-- Prefix test ^(NRF|NGF|F|U|LH|BA|B|W|D|OK|UK|UKRD|OKFF)[\s:=] with
    re.IGNORECASE. -/
def gNameLabel (l : List Char) : Bool :=
  gLabelAlts.any (fun alt =>
    match eatLit true alt l with
    | some r => (eatCls (fun c => isWs c || c == ':' || c == '=') r).isSome
    | none => false)

/-- Full-match test ^[\d.,]+\s*m[²2]?$. -/
def gNameAreaOnly (l : List Char) : Bool :=
  match capMany1 isDigitDotComma l with
  | some capR =>
    (match eatCh false 'm' (eatWs capR.2) with
     | some r2 => (((eatCh false '²' r2).orElse (fun _ => eatCh false '2' r2)).getD r2).isEmpty
     | none => false)
  | none => false

/-- Room-name search between the identifier and its assigned area (at most
    five lines, stopping at the area line). -/
def gName (lines : List String) (rIdx aIdx : ℕ) : Option String :=
  (List.range' (rIdx + 1) (min aIdx (rIdx + 6) - (rIdx + 1))).findSome? (fun j =>
    match lines.get? j with
    | none => none
    | some raw =>
      let cand := pstrip raw
      if cand != "" && decide (1 < cand.data.length) && !gNameNumOnly cand.data &&
         !gNameLabel cand.data && !gNameAreaOnly cand.data
      then some cand else none)

/-- Pass three of extract_generic: greedy assignment in identifier
    discovery order; returns ((room id, its line), assigned area index). -/
def gAssignPairs (areas : List AreaInfo) : List (String × ℕ) → List ℕ → List ((String × ℕ) × ℕ)
  | [], _ => []
  | ridp :: ids, used =>
    match findBestGo used ridp.2 areas 0 none with
    | some dk => (ridp, dk.2) :: gAssignPairs areas ids (dk.2 :: used)
    | none => gAssignPairs areas ids used

/-- Room record built from one assignment of pass three. -/
def gMkRoom (lines : List String) (areas : List AreaInfo) (page : ℕ)
    (p : (String × ℕ) × ℕ) : ExtractedRoom :=
  let ai := areas.getD p.2 ⟨0, 0, "", ""⟩
  let nm := gName lines p.1.2 ai.line_idx
  { room_number := p.1.1, room_name := nm.getD "Unknown", area_m2 := ai.area,
    counted_m2 := ai.area, factor := 1, page := page,
    source_text := ai.source_line,
    category := categorize_room (nm.getD ""),
    extraction_pattern := "generic" }

/-- extract_generic from the source (total: its parse errors are caught). -/
def extract_generic (lines : List String) (page : ℕ) : List ExtractedRoom :=
  (gAssignPairs (findAreas lines) (findIds lines) []).map
    (gMkRoom lines (findAreas lines) page)

/-! Style detection. -/

/-- BlueprintStyle enum from the source. -/
inductive BlueprintStyle
  | HAARDTRING | LEIQ | OMNITURM | UNKNOWN
deriving DecidableEq, Repr

/-- The .value string of each style. -/
def BlueprintStyle.value : BlueprintStyle → String
  | .HAARDTRING => "haardtring"
  | .LEIQ => "leiq"
  | .OMNITURM => "omniturm"
  | .UNKNOWN => "unknown"

/-- No word character before the match (the \b boundary at a match
    start; none = start of text). -/
def noWordBefore : Option Char → Bool
  | none => true
  | some c => !isWordChar c

/-- re.search over the text, feeding each position's previous character to
    the matcher for its leading \b test. -/
def searchBGo (m : Option Char → List Char → Bool) : Option Char → List Char → Bool
  | prev, [] => m prev []
  | prev, c :: rest => m prev (c :: rest) || searchBGo m (some c) rest

/-- Boundary-aware search entry point. -/
def searchB (m : Option Char → List Char → Bool) (text : String) : Bool :=
  searchBGo m none text.data

/-- Probe \bF:\s*[\d,]+ (Haardtring area label). -/
def hasFColon (text : String) : Bool :=
  searchB (fun prev l =>
    noWordBefore prev &&
    (match eatLit false ['F', ':'] l with
     | some r => (eatMany1 isDigitComma (eatWs r)).isSome
     | none => false)) text

/-- Probe \bF=\s*[\d.,]+ (LeiQ legacy area label). -/
def hasFEquals (text : String) : Bool :=
  searchB (fun prev l =>
    noWordBefore prev &&
    (match eatLit false ['F', '='] l with
     | some r => (eatMany1 isDigitDotComma (eatWs r)).isSome
     | none => false)) text

/-- Probe \bNRF:\s*[\d,]+ with re.IGNORECASE (LeiQ modern label). -/
def hasNrf (text : String) : Bool :=
  searchB (fun prev l =>
    noWordBefore prev &&
    (match eatLit true ['N', 'R', 'F', ':'] l with
     | some r => (eatMany1 isDigitComma (eatWs r)).isSome
     | none => false)) text

/-- Probe \bNGF:\s*[\d.,]+ with re.IGNORECASE (Omniturm label). -/
def hasNgf (text : String) : Bool :=
  searchB (fun prev l =>
    noWordBefore prev &&
    (match eatLit true ['N', 'G', 'F', ':'] l with
     | some r => (eatMany1 isDigitDotComma (eatWs r)).isSome
     | none => false)) text

/-- Probe \bR\d+\.E\d+\.\d+\.\d+\b. -/
def hasRFull (text : String) : Bool :=
  searchB (fun prev l =>
    noWordBefore prev &&
    (match (do
       let r ← eatCh false 'R' l
       let r ← eatMany1 Char.isDigit r
       let r ← eatCh false '.' r
       let r ← eatCh false 'E' r
       let r ← eatMany1 Char.isDigit r
       let r ← eatCh false '.' r
       let r ← eatMany1 Char.isDigit r
       let r ← eatCh false '.' r
       eatMany1 Char.isDigit r : Option (List Char)) with
     | some r => bAfter r
     | none => false)) text

/-- Probe \bR\d+[A-Z]\b. -/
def hasRSimple (text : String) : Bool :=
  searchB (fun prev l =>
    noWordBefore prev &&
    (match (do
       let r ← eatCh false 'R' l
       let r ← eatMany1 Char.isDigit r
       eatCls isUpper r : Option (List Char)) with
     | some r => bAfter r
     | none => false)) text

/-- Probe \bE\.[A-Z0-9]+\.\d+\.\d+\b. -/
def hasEApartment (text : String) : Bool :=
  searchB (fun prev l =>
    noWordBefore prev &&
    (match (do
       let r ← eatLit false ['E', '.'] l
       let r ← eatMany1 isUpperDigit r
       let r ← eatCh false '.' r
       let r ← eatMany1 Char.isDigit r
       let r ← eatCh false '.' r
       eatMany1 Char.isDigit r : Option (List Char)) with
     | some r => bAfter r
     | none => false)) text

/-- Probe \bB\.\d+\.\d+\.\d+\b. -/
def hasBPattern (text : String) : Bool :=
  searchB (fun prev l =>
    noWordBefore prev &&
    (match (do
       let r ← eatLit false ['B', '.'] l
       let r ← eatMany1 Char.isDigit r
       let r ← eatCh false '.' r
       let r ← eatMany1 Char.isDigit r
       let r ← eatCh false '.' r
       eatMany1 Char.isDigit r : Option (List Char)) with
     | some r => bAfter r
     | none => false)) text

/-- Probe \b\d+_[a-z]\d+\.\d+\b. -/
def hasGridPattern (text : String) : Bool :=
  searchB (fun prev l =>
    noWordBefore prev &&
    (match oGrid l with
     | some r => bAfter r
     | none => false)) text

/-- Probe \b(BA:|B:|W:|D:)\s*\d (Haardtring metadata codes). -/
def hasHaardtringCodes (text : String) : Bool :=
  searchB (fun prev l =>
    noWordBefore prev &&
    ([['B', 'A', ':'], ['B', ':'], ['W', ':'], ['D', ':']].any (fun alt =>
      match eatLit false alt l with
      | some r => (eatCls Char.isDigit (eatWs r)).isSome
      | none => false))) text

/-- The decision tree of detect_blueprint_style over the probe results,
    in source order. -/
def detectCore (fc feq nrf ngf rfull rsimple eap b grid codes : Bool) : BlueprintStyle :=
  let hrooms := rfull || rsimple || eap
  if fc && hrooms then .HAARDTRING
  else if fc && codes then .HAARDTRING
  else if nrf && b then .LEIQ
  else if feq && b then .LEIQ
  else if ngf && (grid || b) then .OMNITURM
  else if ngf then .OMNITURM
  else if nrf || feq then .LEIQ
  else if fc then .HAARDTRING
  else .UNKNOWN

/-- detect_blueprint_style from the source. -/
def detect_blueprint_style (text : String) : BlueprintStyle :=
  detectCore (hasFColon text) (hasFEquals text) (hasNrf text) (hasNgf text)
    (hasRFull text) (hasRSimple text) (hasEApartment text) (hasBPattern text)
    (hasGridPattern text) (hasHaardtringCodes text)

/-- Reference decision tree written from the words of the specification
    (claim C5): colon label with Haardtring rooms or codes → haardtring;
    modern or legacy label with the B room grammar → leiq; the NGF label →
    omniturm regardless of room co-occurrence; lone NRF/F= → leiq; lone
    F: → haardtring; otherwise unknown. -/
def specDetect (fc feq nrf ngf hrooms b codes : Bool) : BlueprintStyle :=
  if fc && (hrooms || codes) then .HAARDTRING
  else if (nrf || feq) && b then .LEIQ
  else if ngf then .OMNITURM
  else if nrf || feq then .LEIQ
  else if fc then .HAARDTRING
  else .UNKNOWN

/-! Orchestrator: the per-page extraction cascade and the aggregation of
    totals (extract_room_areas lines 742-816; the PDF opening and page
    iteration are the external text-extraction collaborator). -/

/-- The style → extraction-function dispatch (the dict .get with the
    generic fallback for an unknown style). -/
def pageExtract (st : BlueprintStyle) (lines : List String) (page : ℕ) :
    Except Unit (List ExtractedRoom) :=
  match st with
  | .HAARDTRING => extract_haardtring lines page
  | .LEIQ => extract_leiq lines page
  | .OMNITURM => extract_omniturm lines page
  | .UNKNOWN => .ok (extract_generic lines page)

/-- The fallback loop over the other known styles, accepting the first
    non-empty result and recording its warning. -/
def tryFallback (lines : List String) (pageIdx : ℕ) :
    List BlueprintStyle → Except Unit (List ExtractedRoom × List String)
  | [] => .ok ([], [])
  | st :: rest =>
    match pageExtract st lines pageIdx with
    | .error e => .error e
    | .ok altRooms =>
      if altRooms.isEmpty then tryFallback lines pageIdx rest
      else .ok (altRooms,
        ["Page " ++ toString pageIdx ++ ": Used " ++ st.value ++ " pattern as fallback"])

/-- Per-page processing of extract_room_areas: chosen extractor, then the
    fallback cascade, then the generic extractor (the latter guarded by
    `not page_rooms`, the chosen extractor's own emptiness). -/
def processPage (detected : BlueprintStyle) (lines : List String) (pageIdx : ℕ) :
    Except Unit (List ExtractedRoom × List String) :=
  match pageExtract detected lines pageIdx with
  | .error e => .error e
  | .ok pageRooms =>
    if pageRooms.isEmpty then
      match tryFallback lines pageIdx
        ([BlueprintStyle.HAARDTRING, BlueprintStyle.LEIQ, BlueprintStyle.OMNITURM].filter
          (fun s => s != detected)) with
      | .error e => .error e
      | .ok fb =>
        let gpart :=
          if detected != BlueprintStyle.UNKNOWN then
            let g := extract_generic lines pageIdx
            if g.isEmpty then ([], [])
            else (g, ["Page " ++ toString pageIdx ++ ": Used generic flexible extraction"])
          else ([], [])
        .ok (pageRooms ++ fb.1 ++ gpart.1, fb.2 ++ gpart.2)
    else .ok (pageRooms, [])

/-- The totals_by_category incremental dict update
    (totals_by_category.get(cat, 0) + counted, insertion-ordered). -/
def addToCat : List (String × ℚ) → String → ℚ → List (String × ℚ)
  | [], c, v => [(c, v)]
  | (k, w) :: rest, c, v =>
    if k = c then (k, w + v) :: rest else (k, w) :: addToCat rest c v

/-- The aggregate totals of an ExtractionResult. -/
structure AggTotals where
  total_area_m2 : ℚ
  total_counted_m2 : ℚ
  totals_by_category : List (String × ℚ)
deriving DecidableEq, Repr

/-- Aggregation of extract_room_areas over the collected rooms: rounded
    sums and the per-category rounded dict. -/
def aggregate (rooms : List ExtractedRoom) : AggTotals :=
  { total_area_m2 := round2 ((rooms.map (fun r => r.area_m2)).sum)
  , total_counted_m2 := round2 ((rooms.map (fun r => r.counted_m2)).sum)
  , totals_by_category :=
      (rooms.foldl (fun acc r => addToCat acc r.category.value r.counted_m2) []).map
        (fun p => (p.1, round2 p.2)) }

/-! Predicates used by the theorem statements (defined, like everything
    above, from the source's scanning code). -/

/-- An anchor of the haardtring grammar matches at line i. -/
def hAnchorAt (lines : List String) (i : ℕ) : Bool :=
  match lines.get? i with
  | none => false
  | some raw => (hAnchor (pstrip raw).data).isSome

/-- A haardtring area token is present at line j: inline F: with value, or
    a bare "F:" with the value on the next line. -/
def hAreaTokAt (lines : List String) (j : ℕ) : Bool :=
  match lines.get? j with
  | none => false
  | some raw =>
    (hInline (pstrip raw).data).isSome ||
    (pstrip raw == "F:" &&
      (match lines.get? (j + 1) with
       | some nxt => (hValue (pstrip nxt).data).isSome
       | none => false))

/-- The haardtring lookahead stop fires at line m. -/
def hStopAt (lines : List String) (m : ℕ) : Bool :=
  match lines.get? m with
  | none => false
  | some raw => hStop (pstrip raw).data

/-- An anchor of the LeiQ grammar matches at line i. -/
def lAnchorAt (lines : List String) (i : ℕ) : Bool :=
  match lines.get? i with
  | none => false
  | some raw => (lAnchor (pstrip raw).data).isSome

/-- A LeiQ area token is present at line j: inline NRF/F with value, or an
    exact split token with the value on the next line. -/
def lAreaTokAt (lines : List String) (j : ℕ) : Bool :=
  match lines.get? j with
  | none => false
  | some raw =>
    (lNrf (pstrip raw).data).isSome || (lF (pstrip raw).data).isSome ||
    (lSplitValue lines j (pstrip raw)).isSome

/-- An anchor of the omniturm grammar matches at line i. -/
def oAnchorAt (lines : List String) (i : ℕ) : Bool :=
  match lines.get? i with
  | none => false
  | some raw => oAnchorB (pstrip raw).data

/-- An omniturm area source is present at line j: inline NGF with value, a
    bare "NGF:" with the value on the next line, or a Schacht token whose
    area stands two lines below. -/
def oAreaTokAt (lines : List String) (j : ℕ) : Bool :=
  match lines.get? j with
  | none => false
  | some raw =>
    (oNgf (pstrip raw).data).isSome ||
    (pstrip raw == "NGF:" &&
      (match lines.get? (j + 1) with
       | some nxt => (lValue (pstrip nxt).data).isSome
       | none => false)) ||
    ((oSchacht (pstrip raw).data).isSome &&
      (match lines.get? (j + 2) with
       | some ar => (hValue (pstrip ar).data).isSome
       | none => false))

/-- The room emitted by the C2 override scenario. -/
def c2room : ExtractedRoom :=
  { room_number := "R1A", room_name := "Balkon", area_m2 := 10,
    counted_m2 := 5, factor := 1/2, page := 0, source_text := "F: 10.0",
    category := .OUTDOOR, factor_source := some "explicit_50%",
    extraction_pattern := "F:" }

/-- The room emitted by extract_leiq on the modern-label page used as the
    c10 witness. -/
def c10room : ExtractedRoom :=
  { room_number := "B.00.2.002", room_name := "Büro", area_m2 := 617/50,
    counted_m2 := 617/50, factor := 1, page := 0, source_text := "NRF: 12.34",
    category := .OFFICE, extraction_pattern := "NRF:" }

/-- Sum of counted_m2 over the rooms of one category value. -/
def catSum (rooms : List ExtractedRoom) (c : String) : ℚ :=
  ((rooms.filter (fun r => r.category.value == c)).map (fun r => r.counted_m2)).sum

/-! ### Claim C5: the style-detection decision tree -/

/-- The source decision tree equals the specification's ordered tree on
    every probe combination. -/
theorem detectCore_eq_spec :
    ∀ fc feq nrf ngf rfull rsimple eap b grid codes,
      detectCore fc feq nrf ngf rfull rsimple eap b grid codes =
        specDetect fc feq nrf ngf (rfull || rsimple || eap) b codes := by
  decide

/-- C5: detect_blueprint_style implements the specified ordered decision
    tree: F: with Haardtring rooms or codes → haardtring; NRF:/F= with the
    B room grammar → leiq; NGF: → omniturm regardless of room
    co-occurrence; lone NRF:/F= → leiq, then lone F: → haardtring as
    tie-breakers in that order; unknown when no probe fires. -/
theorem c5_detect_tree :
    ∀ text, detect_blueprint_style text =
      specDetect (hasFColon text) (hasFEquals text) (hasNrf text) (hasNgf text)
        (hasRFull text || hasRSimple text || hasEApartment text)
        (hasBPattern text) (hasHaardtringCodes text) := fun text =>
  detectCore_eq_spec (hasFColon text) (hasFEquals text) (hasNrf text) (hasNgf text)
    (hasRFull text) (hasRSimple text) (hasEApartment text) (hasBPattern text)
    (hasGridPattern text) (hasHaardtringCodes text)

/-! ### Claim C1: source_text traceability -/

/-- C1 (refuted, code bug): on the haardtring page ["R1A", "Schlafen",
    "F: 12,34 m²"] the emitted room's source_text is "F: 12.34" — the
    reformatted parsed float — which is not a substring of the page text,
    against the documented traceability guarantee. -/
theorem c1_source_text_not_substring :
    extract_haardtring ["R1A", "Schlafen", "F: 12,34 m²"] 0 =
      Except.ok [{ room_number := "R1A", room_name := "Schlafen", area_m2 := 617/50,
                   counted_m2 := 617/50, factor := 1, page := 0, source_text := "F: 12.34",
                   category := .RESIDENTIAL, extraction_pattern := "F:" }] ∧
    containsSub "F: 12.34".data
      (String.intercalate "\n" ["R1A", "Schlafen", "F: 12,34 m²"]).data = false := by
  decide

/-! ### Claim C3: the fallback cascade -/

/-- C3 (refuted, code bug): with selected style omniturm on a LeiQ-shaped
    page, the leiq fallback succeeds and the generic extractor still runs
    and adds its rooms, because the final guard re-tests the stale
    page_rooms of the originally chosen extractor. -/
theorem c3_generic_added_after_fallback :
    processPage BlueprintStyle.OMNITURM ["B.00.2.002", "Büro", "NRF: 12,34 m2"] 0 =
      Except.ok
        ([{ room_number := "B.00.2.002", room_name := "Büro", area_m2 := 617/50,
            counted_m2 := 617/50, factor := 1, page := 0, source_text := "NRF: 12.34",
            category := .OFFICE, extraction_pattern := "NRF:" },
          { room_number := "B.00.2.002", room_name := "Büro", area_m2 := 617/50,
            counted_m2 := 617/50, factor := 1, page := 0, source_text := "NRF: 12,34 m2",
            category := .OFFICE, extraction_pattern := "generic" }],
         ["Page 0: Used leiq pattern as fallback",
          "Page 0: Used generic flexible extraction"]) := by
  decide

/-! ### Claim C4: local token-parse failures -/

/-- C4 counterexample: in extract_haardtring a numeric capture with two
    commas raises (propagated ValueError) instead of dropping the
    candidate. -/
theorem c4_counterexample :
    extract_haardtring ["R1A", "Zimmer", "F: 12,34,56 m²"] 0 = Except.error () := by
  decide

/-- C4 amended: only the generic extractor drops a candidate with an
    unparseable numeric capture silently and still emits the remaining
    rooms; in each of the three style extractors the same failure raises
    and aborts the page's extraction call. -/
theorem c4_amended :
    extract_generic ["NRF: 12,34,56 m2", "B.001", "NRF: 10,00 m2"] 0 =
      [{ room_number := "B.001", room_name := "Unknown", area_m2 := 10,
         counted_m2 := 10, factor := 1, page := 0, source_text := "NRF: 10,00 m2",
         category := .OTHER, extraction_pattern := "generic" }] ∧
    extract_leiq ["B.00.2.002", "Büro", "NRF: 1,2,3 m2"] 0 = Except.error () ∧
    extract_omniturm ["03_b6.12", "Raum", "NGF: 1,2,3 m2"] 0 = Except.error () := by
  decide

/-! ### Counterexamples for claims C2, C6, C7, C10 -/

/-- C2 counterexample: extract_leiq emits an outdoor-category room
    (Balkon) with factor 1 and counted_m2 = area_m2 — the default outdoor
    0.5 policy is applied by the haardtring extractor only. -/
theorem c2_counterexample :
    extract_leiq ["B.00.2.002", "Balkon", "NRF: 10,00 m2"] 0 =
      Except.ok [{ room_number := "B.00.2.002", room_name := "Balkon", area_m2 := 10,
                   counted_m2 := 10, factor := 1, page := 0, source_text := "NRF: 10.0",
                   category := .OUTDOOR, extraction_pattern := "NRF:" }] ∧
    (1 : ℚ) ≠ 1/2 := by
  decide

/-- C6 counterexample: the single identifier sits on line 0 and the single
    area match on line 15 — a line-index distance of exactly 15, not under
    15 — yet the area is assigned (the 0.5 after-bonus is applied before
    the threshold test, making 14.5 < 15). -/
theorem c6_counterexample :
    findIds ["B.001", "", "", "", "", "", "", "", "", "", "", "", "", "", "",
             "NRF: 7,00 m2"] = [("B.001", 0)] ∧
    (findAreas ["B.001", "", "", "", "", "", "", "", "", "", "", "", "", "", "",
                "NRF: 7,00 m2"]).map (fun a => a.line_idx) = [15] ∧
    (extract_generic ["B.001", "", "", "", "", "", "", "", "", "", "", "", "", "", "",
                      "NRF: 7,00 m2"] 0).map (fun r => (r.room_number, r.area_m2)) =
      [("B.001", 7)] := by
  decide

/-- C7 counterexample: line 2 matches the haardtring room-anchor grammar
    (R\d+[A-Z] as a prefix of "R1B extra"), yet the lookahead for the
    anchor at line 0 runs past it (the stop test demands the whole line)
    and the area on line 3 is used for both anchors. -/
theorem c7_counterexample :
    hAnchor (pstrip "R1B extra").data = some "R1B" ∧
    extract_haardtring ["R1A", "Name", "R1B extra", "F: 10,00 m²"] 0 =
      Except.ok
        [{ room_number := "R1A", room_name := "Name", area_m2 := 10,
           counted_m2 := 10, factor := 1, page := 0, source_text := "F: 10.0",
           category := .OTHER, extraction_pattern := "F:" },
         { room_number := "R1B", room_name := "Unknown", area_m2 := 10,
           counted_m2 := 10, factor := 1, page := 0, source_text := "F: 10.0",
           category := .OTHER, extraction_pattern := "F:" }] := by
  decide

/-- C10 counterexample: a zero-valued area match ("F: 0,00 m²") yields no
    record, but not "exactly as if no area had been found": the lookahead
    still stops there, so the later "F: 5,00 m²" in the window is ignored,
    while with a neutral line in its place a record is emitted. -/
theorem c10_counterexample :
    extract_haardtring ["R1A", "Balkon", "F: 0,00 m²", "F: 5,00 m²"] 0 = Except.ok [] ∧
    extract_haardtring ["R1A", "Balkon", "x", "F: 5,00 m²"] 0 =
      Except.ok [{ room_number := "R1A", room_name := "Balkon", area_m2 := 5,
                   counted_m2 := 5/2, factor := 1/2, page := 0, source_text := "F: 5.0",
                   category := .OUTDOOR, factor_source := some "default_outdoor",
                   extraction_pattern := "F:" }] := by
  decide

/-! ### Claim C8: aggregation of totals -/

/-- Round-half-even moves a value by at most 1/2. -/
theorem rhe_abs_le (q : ℚ) : |(rhe q : ℚ) - q| ≤ 1/2 := by
  have h0 : ((⌊q⌋ : ℤ) : ℚ) ≤ q := Int.floor_le q
  have h1 : q < ⌊q⌋ + 1 := Int.lt_floor_add_one q
  unfold rhe
  split_ifs with hA hB hC <;>
    · rw [abs_le]; constructor <;> push_cast <;> linarith

/-- Rounding to two decimals moves a value by at most 1/200. -/
theorem round2_abs_le (q : ℚ) : |round2 q - q| ≤ 1/200 := by
  have h := rhe_abs_le (q * 100)
  have e : round2 q - q = ((rhe (q * 100) : ℚ) - q * 100) / 100 := by
    unfold round2; ring
  rw [e, abs_div, abs_of_pos (by norm_num : (0:ℚ) < 100)]
  linarith

/-- addToCat adds its value to the total of the dict's values. -/
theorem addToCat_snd_sum (l : List (String × ℚ)) (c : String) (v : ℚ) :
    ((addToCat l c v).map Prod.snd).sum = (l.map Prod.snd).sum + v := by
  induction l with
  | nil => simp [addToCat]
  | cons p rest ih =>
    obtain ⟨k, w⟩ := p
    by_cases h : k = c <;> simp [addToCat, h, ih] <;> ring

/-- Looking up the updated key. -/
theorem addToCat_lookup_self (l : List (String × ℚ)) (c : String) (v : ℚ) :
    List.lookup c (addToCat l c v) = some ((List.lookup c l).getD 0 + v) := by
  induction l with
  | nil => simp [addToCat]
  | cons p rest ih =>
    obtain ⟨k, w⟩ := p
    by_cases h : k = c
    · subst h; simp [addToCat, List.lookup]
    · have h' : (c == k) = false := by simp [Ne.symm h]
      simp [addToCat, h, List.lookup, h', ih]

/-- Looking up a different key. -/
theorem addToCat_lookup_ne (l : List (String × ℚ)) (c c' : String) (v : ℚ)
    (h : c' ≠ c) : List.lookup c' (addToCat l c v) = List.lookup c' l := by
  induction l with
  | nil => simp [addToCat, List.lookup, show (c' == c) = false by simp [h]]
  | cons p rest ih =>
    obtain ⟨k, w⟩ := p
    by_cases hk : k = c
    · subst hk; simp [addToCat, List.lookup, show (c' == k) = false by simp [h], ih]
    · simp [addToCat, hk, List.lookup, ih]

/-- catSum over a cons. -/
theorem catSum_cons (r : ExtractedRoom) (rs : List ExtractedRoom) (c : String) :
    catSum (r :: rs) c =
      (if r.category.value == c then r.counted_m2 else 0) + catSum rs c := by
  by_cases h : r.category.value == c <;> simp [catSum, List.filter_cons, h]

/-- The category fold preserves the total of values. -/
theorem foldl_cat_sum (rooms : List ExtractedRoom) :
    ∀ acc : List (String × ℚ),
      ((rooms.foldl (fun acc r => addToCat acc r.category.value r.counted_m2) acc).map
        Prod.snd).sum =
      (acc.map Prod.snd).sum + (rooms.map (fun r => r.counted_m2)).sum := by
  induction rooms with
  | nil => intro acc; simp
  | cons r rs ih =>
    intro acc
    simp only [List.foldl_cons, List.map_cons, List.sum_cons]
    rw [ih, addToCat_snd_sum]
    ring

/-- Once a key is present, the fold adds exactly that category's sum. -/
theorem foldl_lookup_some (rooms : List ExtractedRoom) :
    ∀ (acc : List (String × ℚ)) (c : String) (w : ℚ), List.lookup c acc = some w →
      List.lookup c
        (rooms.foldl (fun acc r => addToCat acc r.category.value r.counted_m2) acc) =
      some (w + catSum rooms c) := by
  induction rooms with
  | nil => intro acc c w h; simp [h, catSum]
  | cons r rs ih =>
    intro acc c w h
    simp only [List.foldl_cons]
    by_cases hc : r.category.value = c
    · subst hc
      have := addToCat_lookup_self acc r.category.value r.counted_m2
      rw [h] at this
      rw [ih _ _ _ this, catSum_cons]
      simp [add_assoc]
    · have hne : c ≠ r.category.value := Ne.symm hc
      have := addToCat_lookup_ne acc r.category.value c r.counted_m2 hne
      rw [h] at this
      rw [ih _ _ _ this, catSum_cons]
      simp [show (r.category.value == c) = false by simp [hc]]

/-- For an absent key, the fold produces exactly the category's rounded-free
    sum when some room carries the category, and nothing otherwise. -/
theorem foldl_lookup_none (rooms : List ExtractedRoom) :
    ∀ (acc : List (String × ℚ)) (c : String), List.lookup c acc = none →
      List.lookup c
        (rooms.foldl (fun acc r => addToCat acc r.category.value r.counted_m2) acc) =
      (if rooms.any (fun r => r.category.value == c) then some (catSum rooms c) else none) := by
  induction rooms with
  | nil => intro acc c h; simp [h]
  | cons r rs ih =>
    intro acc c h
    simp only [List.foldl_cons]
    by_cases hc : r.category.value = c
    · subst hc
      have := addToCat_lookup_self acc r.category.value r.counted_m2
      rw [h] at this
      simp only [Option.getD_none] at this
      rw [foldl_lookup_some rs _ _ _ this, catSum_cons]
      simp [List.any_cons]
    · have hne : c ≠ r.category.value := Ne.symm hc
      have := addToCat_lookup_ne acc r.category.value c r.counted_m2 hne
      rw [h] at this
      rw [ih _ _ this, catSum_cons]
      simp [List.any_cons, show (r.category.value == c) = false by simp [hc]]

/-- Lookup through the per-entry rounding map. -/
theorem lookup_map_round (l : List (String × ℚ)) (c : String) :
    List.lookup c (l.map (fun p => (p.1, round2 p.2))) = (List.lookup c l).map round2 := by
  induction l with
  | nil => simp
  | cons p rest ih =>
    obtain ⟨k, w⟩ := p
    by_cases h : c = k
    · subst h; simp [List.lookup]
    · simp [List.lookup, show (c == k) = false by simp [h], ih]

/-- Rounding every dict value moves the total by at most length/200. -/
theorem sum_round_close (l : List (String × ℚ)) :
    |((l.map (fun p => (p.1, round2 p.2))).map Prod.snd).sum - (l.map Prod.snd).sum| ≤
      l.length / 200 := by
  induction l with
  | nil => simp
  | cons p rest ih =>
    simp only [List.map_cons, List.sum_cons, List.length_cons]
    have h1 := round2_abs_le p.2
    have e : round2 p.2 + ((rest.map (fun p => (p.1, round2 p.2))).map Prod.snd).sum -
        (p.2 + (rest.map Prod.snd).sum) =
        (round2 p.2 - p.2) +
          (((rest.map (fun p => (p.1, round2 p.2))).map Prod.snd).sum -
            (rest.map Prod.snd).sum) := by ring
    rw [e]
    refine le_trans (abs_add _ _) ?_
    push_cast
    linarith

/-- C8: total_area_m2 and total_counted_m2 are the 2-decimal-rounded sums
    of area_m2 and counted_m2; every totals_by_category entry is the
    rounded per-category sum of counted_m2; and the sum of the category
    entries equals total_counted_m2 within rounding tolerance
    ((number of categories + 1)/200). -/
theorem c8_totals (rooms : List ExtractedRoom) :
    (aggregate rooms).total_area_m2 = round2 ((rooms.map (fun r => r.area_m2)).sum) ∧
    (aggregate rooms).total_counted_m2 = round2 ((rooms.map (fun r => r.counted_m2)).sum) ∧
    (∀ c v, List.lookup c (aggregate rooms).totals_by_category = some v →
      v = round2 (catSum rooms c)) ∧
    |((aggregate rooms).totals_by_category.map Prod.snd).sum -
        (aggregate rooms).total_counted_m2| ≤
      ((aggregate rooms).totals_by_category.length + 1) / 200 := by
  have e3 : (aggregate rooms).totals_by_category =
      (rooms.foldl (fun acc r => addToCat acc r.category.value r.counted_m2) []).map
        (fun p => (p.1, round2 p.2)) := rfl
  have e2 : (aggregate rooms).total_counted_m2 =
      round2 ((rooms.map (fun r => r.counted_m2)).sum) := rfl
  refine ⟨rfl, rfl, ?_, ?_⟩
  · intro c v h
    rw [e3, lookup_map_round, foldl_lookup_none rooms [] c (by simp)] at h
    by_cases hany : rooms.any (fun r => r.category.value == c)
    · rw [if_pos hany] at h
      simp only [Option.map_some'] at h
      exact (Option.some.inj h).symm
    · rw [if_neg hany] at h
      simp at h
  · rw [e3, e2]
    simp only [List.length_map]
    have hsum : (((rooms.foldl (fun acc r => addToCat acc r.category.value r.counted_m2)
        []).map Prod.snd).sum) = (rooms.map (fun r => r.counted_m2)).sum := by
      have := foldl_cat_sum rooms []
      simpa using this
    have hclose := sum_round_close
      (rooms.foldl (fun acc r => addToCat acc r.category.value r.counted_m2) [])
    rw [hsum] at hclose
    have hr := round2_abs_le ((rooms.map (fun r => r.counted_m2)).sum)
    have h3 : |(((rooms.foldl (fun acc r => addToCat acc r.category.value r.counted_m2)
            []).map (fun p => (p.1, round2 p.2))).map Prod.snd).sum -
          round2 ((rooms.map (fun r => r.counted_m2)).sum)| ≤
        |(((rooms.foldl (fun acc r => addToCat acc r.category.value r.counted_m2)
            []).map (fun p => (p.1, round2 p.2))).map Prod.snd).sum -
          (rooms.map (fun r => r.counted_m2)).sum| +
        |round2 ((rooms.map (fun r => r.counted_m2)).sum) -
          (rooms.map (fun r => r.counted_m2)).sum| := by
      calc |(((rooms.foldl (fun acc r => addToCat acc r.category.value r.counted_m2)
              []).map (fun p => (p.1, round2 p.2))).map Prod.snd).sum -
            round2 ((rooms.map (fun r => r.counted_m2)).sum)| =
          |((((rooms.foldl (fun acc r => addToCat acc r.category.value r.counted_m2)
              []).map (fun p => (p.1, round2 p.2))).map Prod.snd).sum -
            (rooms.map (fun r => r.counted_m2)).sum) +
           ((rooms.map (fun r => r.counted_m2)).sum -
            round2 ((rooms.map (fun r => r.counted_m2)).sum))| := by ring_nf
        _ ≤ _ := by
            refine le_trans (abs_add _ _) ?_
            rw [abs_sub_comm ((rooms.map (fun r => r.counted_m2)).sum)]
    linarith

/-- Witness for c8_totals at a concrete room list and category. -/
theorem c8_totals_witness :
    (33 : ℚ)/100 =
      round2 (catSum [{ room_number := "a", room_name := "x", area_m2 := 1/3,
                        counted_m2 := 1/3, factor := 1, page := 0, source_text := "s",
                        category := RoomCategory.OFFICE,
                        extraction_pattern := "p" }] "office") :=
  (c8_totals _).2.2.1 "office" (33/100) (by decide)

/-! ### Claim C9: the locale-aware number parser -/

/-- Digits and separators are not whitespace. -/
theorem not_ws_of_sep (c : Char)
    (h : c.isDigit = true ∨ c = '.' ∨ c = ',') : isWs c = false := by
  have h1 : c ≠ ' ' := by rintro rfl; rcases h with h | h | h <;> revert h <;> decide
  have h2 : c ≠ '\t' := by rintro rfl; rcases h with h | h | h <;> revert h <;> decide
  have h3 : c ≠ '\r' := by rintro rfl; rcases h with h | h | h <;> revert h <;> decide
  have h4 : c ≠ '\n' := by rintro rfl; rcases h with h | h | h <;> revert h <;> decide
  unfold isWs Char.isWhitespace
  simp [h1, h2, h3, h4]

/-- dropWhile does nothing on a list free of satisfying heads. -/
theorem dropWhile_no (p : Char → Bool) (l : List Char)
    (h : ∀ c ∈ l, p c = false) : l.dropWhile p = l := by
  cases l with
  | nil => rfl
  | cons c cs => simp [List.dropWhile_cons, h c (by simp)]

/-- stripChars does nothing on a whitespace-free list. -/
theorem stripChars_no_ws (l : List Char)
    (h : ∀ c ∈ l, isWs c = false) : stripChars l = l := by
  unfold stripChars
  rw [dropWhile_no isWs l h]
  rw [dropWhile_no isWs l.reverse (fun c hc => h c (List.mem_reverse.mp hc))]
  exact l.reverse_reverse

/-- contains is false without membership. -/
theorem contains_eq_false (l : List Char) (ch : Char) (h : ch ∉ l) :
    l.contains ch = false := by
  rw [← Bool.not_eq_true]
  intro hc
  exact h (List.elem_iff.mp hc)

/-- contains is true with membership. -/
theorem contains_eq_true (l : List Char) (ch : Char) (h : ch ∈ l) :
    l.contains ch = true := List.elem_iff.mpr h

/-- takeWhile of an all-satisfying prefix closed by a failing head. -/
theorem takeWhile_append_stop (p : Char → Bool) (a : List Char) (x : Char)
    (r : List Char) (ha : ∀ c ∈ a, p c = true) (hx : p x = false) :
    (a ++ x :: r).takeWhile p = a := by
  induction a with
  | nil => simp [List.takeWhile_cons, hx]
  | cons c cs ih =>
    simp only [List.cons_append, List.takeWhile_cons]
    rw [if_pos (ha c (by simp)), ih (fun d hd => ha d (by simp [hd]))]

/-- dropWhile of an all-satisfying prefix closed by a failing head. -/
theorem dropWhile_append_stop (p : Char → Bool) (a : List Char) (x : Char)
    (r : List Char) (ha : ∀ c ∈ a, p c = true) (hx : p x = false) :
    (a ++ x :: r).dropWhile p = x :: r := by
  induction a with
  | nil => simp [List.dropWhile_cons, hx]
  | cons c cs ih =>
    simp only [List.cons_append, List.dropWhile_cons]
    rw [if_pos (ha c (by simp))]
    exact ih (fun d hd => ha d (by simp [hd]))

/-- takeWhile of an all-satisfying list. -/
theorem takeWhile_all_true (p : Char → Bool) (a : List Char)
    (ha : ∀ c ∈ a, p c = true) : a.takeWhile p = a := by
  induction a with
  | nil => rfl
  | cons c cs ih =>
    simp only [List.takeWhile_cons]
    rw [if_pos (ha c (by simp)), ih (fun d hd => ha d (by simp [hd]))]

/-- dropWhile of an all-satisfying list. -/
theorem dropWhile_all_true (p : Char → Bool) (a : List Char)
    (ha : ∀ c ∈ a, p c = true) : a.dropWhile p = [] := by
  induction a with
  | nil => rfl
  | cons c cs ih =>
    simp only [List.dropWhile_cons]
    rw [if_pos (ha c (by simp))]
    exact ih (fun d hd => ha d (by simp [hd]))

/-- The comma-to-point map is the identity on comma-free lists. -/
theorem map_comma_id (l : List Char) (h : ∀ c ∈ l, c ≠ ',') :
    l.map (fun c => if c = ',' then '.' else c) = l := by
  induction l with
  | nil => rfl
  | cons c cs ih =>
    simp only [List.map_cons, if_neg (h c (by simp))]
    rw [ih (fun d hd => h d (by simp [hd]))]

/-- The period filter is the identity on period-free lists. -/
theorem filter_dot_id (l : List Char) (h : ∀ c ∈ l, c ≠ '.') :
    l.filter (fun c => c != '.') = l := by
  induction l with
  | nil => rfl
  | cons c cs ih =>
    simp only [List.filter_cons, bne_iff_ne, ne_eq, h c (by simp), not_false_eq_true,
      if_true]
    rw [ih (fun d hd => h d (by simp [hd]))]

/-- float() on a token of digits and points only ignores the sign cases. -/
theorem floatOfChars_eq_core (l : List Char)
    (h : ∀ c ∈ l, c.isDigit = true ∨ c = '.') : floatOfChars l = floatCore l := by
  have hs : stripChars l = l :=
    stripChars_no_ws l (fun c hc => not_ws_of_sep c (by rcases h c hc with h | h <;> simp [h]))
  unfold floatOfChars
  rw [hs]
  cases l with
  | nil => rfl
  | cons c cs =>
    have hc := h c (by simp)
    have h1 : c ≠ '+' := by rintro rfl; revert hc; decide
    have h2 : c ≠ '-' := by rintro rfl; revert hc; decide
    split
    · next heq => exact absurd (List.cons.inj heq).1 h1
    · next heq => exact absurd (List.cons.inj heq).1 h2
    · rfl

/-- floatCore on a pure digit string. -/
theorem floatCore_digits (a : List Char) (hne : a ≠ [])
    (ha : ∀ c ∈ a, c.isDigit = true) :
    floatCore a = some (natOfDigits a : ℚ) := by
  unfold floatCore
  rw [takeWhile_all_true Char.isDigit a ha, dropWhile_all_true Char.isDigit a ha]
  simp [List.isEmpty_iff, hne]

/-- floatCore on digits, a point, then digits. -/
theorem floatCore_point (a b : List Char)
    (ha : ∀ c ∈ a, c.isDigit = true) (hb : ∀ c ∈ b, c.isDigit = true)
    (hne : a ≠ [] ∨ b ≠ []) :
    floatCore (a ++ '.' :: b) =
      some ((natOfDigits a : ℚ) + (natOfDigits b : ℚ) / (10 : ℚ) ^ b.length) := by
  unfold floatCore
  rw [takeWhile_append_stop Char.isDigit a '.' b ha (by decide),
      dropWhile_append_stop Char.isDigit a '.' b ha (by decide)]
  have hball : b.all Char.isDigit = true := List.all_eq_true.mpr hb
  have hemp : (a.isEmpty && b.isEmpty) = false := by
    rcases hne with h | h <;> rcases a with _ | _ <;> rcases b with _ | _ <;>
      simp_all [List.isEmpty]
  simp [hball, hemp]

/-- floatCore rejects a second point. -/
theorem floatCore_two_points (a b c : List Char)
    (ha : ∀ x ∈ a, x.isDigit = true) (_ : ∀ x ∈ b, x.isDigit = true)
    (_ : ∀ x ∈ c, x.isDigit = true) :
    floatCore (a ++ '.' :: (b ++ '.' :: c)) = none := by
  unfold floatCore
  rw [takeWhile_append_stop Char.isDigit a '.' (b ++ '.' :: c) ha (by decide),
      dropWhile_append_stop Char.isDigit a '.' (b ++ '.' :: c) ha (by decide)]
  have : (b ++ '.' :: c).all Char.isDigit = false := by
    simp [List.all_append]
  simp [this]

/-- C9: the parser strips the period as a thousands separator when both
    separators occur, treats a lone comma as the decimal point, parses
    plain digit tokens as-is, fails (ValueError) when the cleaned token is
    not numeric, and maps the three specification examples as stated. -/
theorem c9_number_parse :
    (∀ a b : List Char, a ≠ [] → b ≠ [] →
      (∀ c ∈ a, c.isDigit = true) → (∀ c ∈ b, c.isDigit = true) →
      parse_german_number (String.mk (a ++ ',' :: b)) =
        some ((natOfDigits a : ℚ) + (natOfDigits b : ℚ) / (10 : ℚ) ^ b.length)) ∧
    (∀ a b c : List Char, a ≠ [] → b ≠ [] → c ≠ [] →
      (∀ x ∈ a, x.isDigit = true) → (∀ x ∈ b, x.isDigit = true) →
      (∀ x ∈ c, x.isDigit = true) →
      parse_german_number (String.mk (a ++ '.' :: (b ++ ',' :: c))) =
        some ((natOfDigits (a ++ b) : ℚ) + (natOfDigits c : ℚ) / (10 : ℚ) ^ c.length)) ∧
    (∀ a : List Char, a ≠ [] → (∀ c ∈ a, c.isDigit = true) →
      parse_german_number (String.mk a) = some (natOfDigits a : ℚ)) ∧
    (∀ a b c : List Char,
      (∀ x ∈ a, x.isDigit = true) → (∀ x ∈ b, x.isDigit = true) →
      (∀ x ∈ c, x.isDigit = true) →
      parse_german_number (String.mk (a ++ ',' :: (b ++ ',' :: c))) = none) ∧
    parse_german_number "1.070,55" = some (21411/20) ∧
    parse_german_number "22,79" = some (2279/100) ∧
    parse_german_number "50.37" = some (5037/100) := by
  refine ⟨?_, ?_, ?_, ?_, by decide, by decide, by decide⟩
  · intro a b hna hnb ha hb
    unfold parse_german_number germanClean
    have hmem : ∀ c ∈ a ++ ',' :: b, c.isDigit = true ∨ c = ',' := by
      intro c hcm
      rcases List.mem_append.mp hcm with h | h
      · exact Or.inl (ha c h)
      · rcases List.mem_cons.mp h with h | h
        · exact Or.inr h
        · exact Or.inl (hb c h)
    rw [show (String.mk (a ++ ',' :: b)).data = a ++ ',' :: b from rfl]
    rw [stripChars_no_ws _ (fun c hc => not_ws_of_sep c (by
      rcases hmem c hc with h | h
      · exact Or.inl h
      · exact Or.inr (Or.inr h)))]
    have hdot : ('.' : Char) ∉ a ++ ',' :: b := by
      intro hmm
      rcases hmem '.' hmm with h | h
      · revert h; decide
      · revert h; decide
    rw [contains_eq_false _ '.' hdot]
    simp only [Bool.false_and, if_neg (by simp : ¬ (false = true))]
    rw [List.map_append, List.map_cons, if_pos rfl,
        map_comma_id a (fun c hc => by rintro rfl; have := ha ',' hc; revert this; decide),
        map_comma_id b (fun c hc => by rintro rfl; have := hb ',' hc; revert this; decide)]
    rw [floatOfChars_eq_core _ (by
      intro c hcm
      rcases List.mem_append.mp hcm with h | h
      · exact Or.inl (ha c h)
      · rcases List.mem_cons.mp h with h | h
        · exact Or.inr h
        · exact Or.inl (hb c h))]
    exact floatCore_point a b ha hb (Or.inl hna)
  · intro a b c hna hnb hnc ha hb hc
    unfold parse_german_number germanClean
    rw [show (String.mk (a ++ '.' :: (b ++ ',' :: c))).data = a ++ '.' :: (b ++ ',' :: c)
      from rfl]
    have hmem : ∀ x ∈ a ++ '.' :: (b ++ ',' :: c),
        x.isDigit = true ∨ x = '.' ∨ x = ',' := by
      intro x hxm
      rcases List.mem_append.mp hxm with h | h
      · exact Or.inl (ha x h)
      · rcases List.mem_cons.mp h with h | h
        · exact Or.inr (Or.inl h)
        · rcases List.mem_append.mp h with h | h
          · exact Or.inl (hb x h)
          · rcases List.mem_cons.mp h with h | h
            · exact Or.inr (Or.inr h)
            · exact Or.inl (hc x h)
    rw [stripChars_no_ws _ (fun x hx => not_ws_of_sep x (hmem x hx))]
    rw [contains_eq_true _ '.' (by simp), contains_eq_true _ ','
      (by simp [List.mem_append, List.mem_cons])]
    rw [if_pos (by decide : ((true && true) = true))]
    rw [List.filter_append, List.filter_cons,
        filter_dot_id a (fun x hx => by rintro rfl; have := ha '.' hx; revert this; decide),
        filter_dot_id (b ++ ',' :: c) ?hbc]
    case hbc =>
      intro x hx
      rcases List.mem_append.mp hx with h | h
      · rintro rfl; have := hb '.' h; revert this; decide
      · rcases List.mem_cons.mp h with h | h
        · rintro rfl; revert h; decide
        · rintro rfl; have := hc '.' h; revert this; decide
    simp only [show (('.' : Char) != '.') = false from rfl, if_neg (by simp : ¬ false = true)]
    rw [List.map_append, List.map_append, List.map_cons, if_pos rfl,
        map_comma_id a (fun x hx => by rintro rfl; have := ha ',' hx; revert this; decide),
        map_comma_id b (fun x hx => by rintro rfl; have := hb ',' hx; revert this; decide),
        map_comma_id c (fun x hx => by rintro rfl; have := hc ',' hx; revert this; decide)]
    rw [floatOfChars_eq_core _ (by
      intro x hxm
      rcases List.mem_append.mp hxm with h | h
      · exact Or.inl (ha x h)
      · rcases List.mem_append.mp h with h | h
        · exact Or.inl (hb x h)
        · rcases List.mem_cons.mp h with h | h
          · exact Or.inr h
          · exact Or.inl (hc x h))]
    rw [show a ++ (b ++ '.' :: c) = (a ++ b) ++ '.' :: c by simp]
    rw [floatCore_point (a ++ b) c (by
        intro x hx
        rcases List.mem_append.mp hx with h | h
        · exact ha x h
        · exact hb x h) hc (Or.inl (by simp [hna]))]
  · intro a hna ha
    unfold parse_german_number germanClean
    rw [show (String.mk a).data = a from rfl]
    rw [stripChars_no_ws _ (fun c hc => not_ws_of_sep c (Or.inl (ha c hc)))]
    have hcomma : (',' : Char) ∉ a := by
      intro hmm; have := ha ',' hmm; revert this; decide
    rw [contains_eq_false _ ',' hcomma]
    simp only [Bool.and_false, if_neg (by simp : ¬ (false = true))]
    rw [map_comma_id a (fun c hc => by rintro rfl; have := ha ',' hc; revert this; decide)]
    rw [floatOfChars_eq_core _ (fun c hc => Or.inl (ha c hc))]
    exact floatCore_digits a hna ha
  · intro a b c ha hb hc
    unfold parse_german_number germanClean
    rw [show (String.mk (a ++ ',' :: (b ++ ',' :: c))).data = a ++ ',' :: (b ++ ',' :: c)
      from rfl]
    have hmem : ∀ x ∈ a ++ ',' :: (b ++ ',' :: c), x.isDigit = true ∨ x = ',' := by
      intro x hxm
      rcases List.mem_append.mp hxm with h | h
      · exact Or.inl (ha x h)
      · rcases List.mem_cons.mp h with h | h
        · exact Or.inr h
        · rcases List.mem_append.mp h with h | h
          · exact Or.inl (hb x h)
          · rcases List.mem_cons.mp h with h | h
            · exact Or.inr h
            · exact Or.inl (hc x h)
    rw [stripChars_no_ws _ (fun x hx => not_ws_of_sep x (by
      rcases hmem x hx with h | h
      · exact Or.inl h
      · exact Or.inr (Or.inr h)))]
    have hdot : ('.' : Char) ∉ a ++ ',' :: (b ++ ',' :: c) := by
      intro hmm
      rcases hmem '.' hmm with h | h
      · revert h; decide
      · revert h; decide
    rw [contains_eq_false _ '.' hdot]
    simp only [Bool.false_and, if_neg (by simp : ¬ (false = true))]
    rw [List.map_append, List.map_cons, List.map_append, List.map_cons, if_pos rfl,
        map_comma_id a (fun x hx => by rintro rfl; have := ha ',' hx; revert this; decide),
        map_comma_id b (fun x hx => by rintro rfl; have := hb ',' hx; revert this; decide),
        map_comma_id c (fun x hx => by rintro rfl; have := hc ',' hx; revert this; decide)]
    rw [floatOfChars_eq_core _ (by
      intro x hxm
      rcases List.mem_append.mp hxm with h | h
      · exact Or.inl (ha x h)
      · rcases List.mem_cons.mp h with h | h
        · exact Or.inr h
        · rcases List.mem_append.mp h with h | h
          · exact Or.inl (hb x h)
          · rcases List.mem_cons.mp h with h | h
            · exact Or.inr h
            · exact Or.inl (hc x h))]
    exact floatCore_two_points a b c ha hb hc

/-- Witness for c9_number_parse: the comma case at "22,79". -/
theorem c9_number_parse_witness :
    parse_german_number (String.mk (['2', '2'] ++ ',' :: ['7', '9'])) =
      some ((natOfDigits ['2', '2'] : ℚ) +
        (natOfDigits ['7', '9'] : ℚ) / (10 : ℚ) ^ (['7', '9'] : List Char).length) :=
  c9_number_parse.1 ['2', '2'] ['7', '9'] (by decide) (by decide)
    (by decide) (by decide)

/-! ### Soundness lemmas for the style extractors -/

/-- get? success bounds the index. -/
theorem get?_lt (lines : List String) (j : ℕ) (raw : String)
    (h : lines.get? j = some raw) : j < lines.length := by
  by_contra hh
  rw [List.get?_eq_none.mpr (le_of_not_lt hh)] at h
  exact Option.noConfusion h

/-- A successful haardtring lookahead found an area token inside the fuel
    window, with no stop line before it. -/
theorem hFindArea_found (lines : List String) :
    ∀ fuel j res, hFindArea lines fuel j = Except.ok (some res) →
      ∃ k, j ≤ k ∧ k < j + fuel ∧ k < lines.length ∧ hAreaTokAt lines k = true ∧
        ∀ m, j ≤ m → m < k → hStopAt lines m = false := by
  intro fuel
  induction fuel with
  | zero => intro j res h; simp [hFindArea] at h
  | succ fuel ih =>
    intro j res h
    rw [hFindArea] at h
    cases hg : lines.get? j with
    | none => simp only [hg] at h; exact Option.noConfusion (Except.ok.inj h)
    | some raw =>
      simp only [hg] at h
      cases hi : hInline (pstrip raw).data with
      | some cap =>
        simp only [hi] at h
        refine ⟨j, le_refl j, by omega, get?_lt lines j raw hg, ?_, by omega⟩
        unfold hAreaTokAt
        rw [hg]
        simp [hi]
      | none =>
        simp only [hi] at h
        cases hs : (if pstrip raw = "F:" then
                      match lines.get? (j + 1) with
                      | some nxt => hValue (pstrip nxt).data
                      | none => none
                    else none) with
        | some cap =>
          simp only [hs] at h
          refine ⟨j, le_refl j, by omega, get?_lt lines j raw hg, ?_, by omega⟩
          by_cases hf : pstrip raw = "F:"
          · rw [if_pos hf] at hs
            cases hn : lines.get? (j + 1) with
            | none => rw [hn] at hs; exact Option.noConfusion hs
            | some nxt =>
              rw [hn] at hs
              change hValue (pstrip nxt).data = some cap at hs
              unfold hAreaTokAt
              rw [hg, hn]
              simp [hf, hs]
          · rw [if_neg hf] at hs; exact Option.noConfusion hs
        | none =>
          simp only [hs] at h
          cases hstop : hStop (pstrip raw).data with
          | true => simp only [hstop, if_true] at h; exact Option.noConfusion (Except.ok.inj h)
          | false =>
            simp only [hstop, if_false] at h
            obtain ⟨k, hk1, hk2, hk3, hk4, hk5⟩ := ih (j + 1) res h
            refine ⟨k, by omega, by omega, hk3, hk4, ?_⟩
            intro m hm1 hm2
            rcases Nat.eq_or_lt_of_le hm1 with hm | hm
            · subst hm
              unfold hStopAt
              rw [hg]
              exact hstop
            · exact hk5 m hm hm2

/-- Every room of the haardtring scan comes from an anchor line whose
    lookahead succeeded with a nonzero area. -/
theorem hGo_sound (lines : List String) (page : ℕ) :
    ∀ fuel i rooms, hGo lines page fuel i = Except.ok rooms → ∀ r ∈ rooms,
      ∃ i' raw num f, lines.get? i' = some raw ∧ i ≤ i' ∧
        hAnchor (pstrip raw).data = some num ∧
        hFindArea lines (min lines.length (i' + 15) - (i' + 1)) (i' + 1) =
          Except.ok (some f) ∧
        f.area ≠ 0 ∧
        r = hMkRoom num (hName lines (i' + 1)) f page := by
  intro fuel
  induction fuel with
  | zero =>
    intro i rooms h r hr
    rw [hGo] at h
    cases Except.ok.inj h
    simp at hr
  | succ fuel ih =>
    intro i rooms h r hr
    rw [hGo] at h
    cases hg : lines.get? i with
    | none =>
      simp only [hg] at h
      cases Except.ok.inj h
      simp at hr
    | some raw =>
      simp only [hg] at h
      cases hA : hAnchor (pstrip raw).data with
      | none =>
        simp only [hA] at h
        obtain ⟨i', raw', num, f, h1, h2, h3, h4, h5, h6⟩ := ih (i + 1) rooms h r hr
        exact ⟨i', raw', num, f, h1, by omega, h3, h4, h5, h6⟩
      | some num =>
        simp only [hA] at h
        cases hf : hFindArea lines (min lines.length (i + 15) - (i + 1)) (i + 1) with
        | error e => simp only [hf] at h; exact Except.noConfusion h
        | ok found =>
          simp only [hf] at h
          cases hrest : hGo lines page fuel (i + 1) with
          | error e => simp only [hrest] at h; exact Except.noConfusion h
          | ok rest =>
            simp only [hrest] at h
            cases found with
            | none =>
              simp only at h
              cases Except.ok.inj h
              obtain ⟨i', raw', num', f, h1, h2, h3, h4, h5, h6⟩ :=
                ih (i + 1) _ hrest r hr
              exact ⟨i', raw', num', f, h1, by omega, h3, h4, h5, h6⟩
            | some f =>
              simp only at h
              by_cases hz : f.area = 0
              · rw [if_neg (by simp [hz])] at h
                cases Except.ok.inj h
                obtain ⟨i', raw', num', f', h1, h2, h3, h4, h5, h6⟩ :=
                  ih (i + 1) _ hrest r hr
                exact ⟨i', raw', num', f', h1, by omega, h3, h4, h5, h6⟩
              · rw [if_pos (by simp [hz])] at h
                cases Except.ok.inj h
                rcases List.mem_cons.mp hr with hr | hr
                · exact ⟨i, raw, num, f, hg, le_refl i, hA, hf, hz, hr⟩
                · obtain ⟨i', raw', num', f', h1, h2, h3, h4, h5, h6⟩ :=
                    ih (i + 1) _ hrest r hr
                  exact ⟨i', raw', num', f', h1, by omega, h3, h4, h5, h6⟩

/-- The LeiQ room pattern needs a leading 'B'. -/
theorem lAnchor_ne_head (c : Char) (cs : List Char) (h : c ≠ 'B') :
    lAnchor (c :: cs) = none := by
  simp [lAnchor, eatLit, eatCh, h]

/-- A perimeter line cannot be a room anchor. -/
theorem lU_no_anchor (l : List Char) (h : (lU l).isSome = true) : lAnchor l = none := by
  cases l with
  | nil => exfalso; revert h; decide
  | cons c cs =>
    have hc : c = 'U' ∨ c = 'u' := by
      by_contra hcon
      push_neg at hcon
      simp [lU, eatCh, hcon.1, hcon.2, show altCase 'U' = 'u' from by decide] at h
    apply lAnchor_ne_head
    rcases hc with rfl | rfl <;> decide

/-- A height line cannot be a room anchor. -/
theorem lLH_no_anchor (l : List Char) (h : (lLH l).isSome = true) : lAnchor l = none := by
  cases l with
  | nil => exfalso; revert h; decide
  | cons c cs =>
    have hc : c = 'L' ∨ c = 'l' := by
      by_contra hcon
      push_neg at hcon
      simp [lLH, eatCh, hcon.1, hcon.2, show altCase 'L' = 'l' from by decide] at h
    apply lAnchor_ne_head
    rcases hc with rfl | rfl <;> decide

/-- If the LeiQ metadata loop produced an area that was not already in the
    incoming state, some window line carried a LeiQ area token, with no
    room anchor on the lines before it. -/
theorem lLoop_area (lines : List String) :
    ∀ fuel j st st', lLoop lines fuel j st = Except.ok st' → st'.area.isSome = true →
      st.area.isSome = true ∨
      ∃ k, j ≤ k ∧ k < j + fuel ∧ k < lines.length ∧ lAreaTokAt lines k = true ∧
        ∀ m, j ≤ m → m < k → lAnchorAt lines m = false := by
  intro fuel
  induction fuel with
  | zero =>
    intro j st st' h hsome
    rw [lLoop] at h
    cases Except.ok.inj h
    exact Or.inl hsome
  | succ fuel ih =>
    intro j st st' h hsome
    rw [lLoop] at h
    cases hg : lines.get? j with
    | none =>
      simp only [hg] at h
      cases Except.ok.inj h
      exact Or.inl hsome
    | some raw =>
      simp only [hg] at h
      by_cases hc1 : ((lNrf (pstrip raw).data).isSome && st.area.isNone) = true
      · rw [if_pos hc1] at h
        refine Or.inr ⟨j, le_refl j, by omega, get?_lt lines j raw hg, ?_, by omega⟩
        unfold lAreaTokAt
        rw [hg]
        rw [Bool.and_eq_true] at hc1
        simp [hc1.1]
      · rw [if_neg hc1] at h
        by_cases hc2 : ((lF (pstrip raw).data).isSome && st.area.isNone) = true
        · rw [if_pos hc2] at h
          refine Or.inr ⟨j, le_refl j, by omega, get?_lt lines j raw hg, ?_, by omega⟩
          unfold lAreaTokAt
          rw [hg]
          rw [Bool.and_eq_true] at hc2
          simp [hc2.1]
        · rw [if_neg hc2] at h
          by_cases hc3 : ((lSplitValue lines j (pstrip raw)).isSome && st.area.isNone) = true
          · rw [if_pos hc3] at h
            refine Or.inr ⟨j, le_refl j, by omega, get?_lt lines j raw hg, ?_, by omega⟩
            unfold lAreaTokAt
            rw [hg]
            rw [Bool.and_eq_true] at hc3
            simp [hc3.1]
          · rw [if_neg hc3] at h
            by_cases hc4 : ((lU (pstrip raw).data).isSome) = true
            · rw [if_pos hc4] at h
              cases hp : exceptOfParse ((lU (pstrip raw).data).getD []) with
              | error e => rw [hp] at h; exact Except.noConfusion h
              | ok p =>
                rw [hp] at h
                rcases ih (j + 1) _ st' h (by simpa using hsome) with hL | ⟨k, hk1, hk2, hk3, hk4, hk5⟩
                · exact Or.inl (by simpa using hL)
                · refine Or.inr ⟨k, by omega, by omega, hk3, hk4, ?_⟩
                  intro m hm1 hm2
                  rcases Nat.eq_or_lt_of_le hm1 with hm | hm
                  · subst hm
                    unfold lAnchorAt
                    rw [hg]
                    simp [lU_no_anchor _ hc4]
                  · exact hk5 m hm hm2
            · rw [if_neg hc4] at h
              by_cases hc5 : ((lLH (pstrip raw).data).isSome) = true
              · rw [if_pos hc5] at h
                cases hp : exceptOfParse ((lLH (pstrip raw).data).getD []) with
                | error e => rw [hp] at h; exact Except.noConfusion h
                | ok p =>
                  rw [hp] at h
                  rcases ih (j + 1) _ st' h (by simpa using hsome) with hL | ⟨k, hk1, hk2, hk3, hk4, hk5⟩
                  · exact Or.inl (by simpa using hL)
                  · refine Or.inr ⟨k, by omega, by omega, hk3, hk4, ?_⟩
                    intro m hm1 hm2
                    rcases Nat.eq_or_lt_of_le hm1 with hm | hm
                    · subst hm
                      unfold lAnchorAt
                      rw [hg]
                      simp [lLH_no_anchor _ hc5]
                    · exact hk5 m hm hm2
              · rw [if_neg hc5] at h
                by_cases hc6 : ((lAnchor (pstrip raw).data).isSome) = true
                · rw [if_pos hc6] at h
                  cases Except.ok.inj h
                  exact Or.inl hsome
                · rw [if_neg hc6] at h
                  rcases ih (j + 1) st st' h hsome with hL | ⟨k, hk1, hk2, hk3, hk4, hk5⟩
                  · exact Or.inl hL
                  · refine Or.inr ⟨k, by omega, by omega, hk3, hk4, ?_⟩
                    intro m hm1 hm2
                    rcases Nat.eq_or_lt_of_le hm1 with hm | hm
                    · subst hm
                      unfold lAnchorAt
                      rw [hg]
                      simpa using hc6
                    · exact hk5 m hm hm2

/-- Every room of the LeiQ scan comes from an anchor line whose metadata
    loop produced a nonzero area. -/
theorem lGo_sound (lines : List String) (page : ℕ) :
    ∀ fuel i rooms, lGo lines page fuel i = Except.ok rooms → ∀ r ∈ rooms,
      ∃ i' raw numCap st a, lines.get? i' = some raw ∧ i ≤ i' ∧
        lAnchor (pstrip raw).data = some numCap ∧
        lLoop lines (min lines.length (i' + 15) - (i' + 1)) (i' + 1)
          ⟨none, none, none, none⟩ = Except.ok st ∧
        st.area = some a ∧ a ≠ 0 ∧
        r = lMkRoom (String.mk numCap) (lName lines (i' + 1)) st a page := by
  intro fuel
  induction fuel with
  | zero =>
    intro i rooms h r hr
    rw [lGo] at h
    cases Except.ok.inj h
    simp at hr
  | succ fuel ih =>
    intro i rooms h r hr
    rw [lGo] at h
    cases hg : lines.get? i with
    | none =>
      simp only [hg] at h
      cases Except.ok.inj h
      simp at hr
    | some raw =>
      simp only [hg] at h
      cases hA : lAnchor (pstrip raw).data with
      | none =>
        simp only [hA] at h
        obtain ⟨i', raw', nc, st, a, h1, h2, h3, h4, h5, h6, h7⟩ := ih (i + 1) rooms h r hr
        exact ⟨i', raw', nc, st, a, h1, by omega, h3, h4, h5, h6, h7⟩
      | some numCap =>
        simp only [hA] at h
        cases hl : lLoop lines (min lines.length (i + 15) - (i + 1)) (i + 1)
            ⟨none, none, none, none⟩ with
        | error e => simp only [hl] at h; exact Except.noConfusion h
        | ok st =>
          simp only [hl] at h
          cases hrest : lGo lines page fuel (i + 1) with
          | error e => simp only [hrest] at h; exact Except.noConfusion h
          | ok rest =>
            simp only [hrest] at h
            cases hst : st.area with
            | none =>
              rw [hst] at h
              simp only at h
              cases Except.ok.inj h
              obtain ⟨i', raw', nc, st', a, h1, h2, h3, h4, h5, h6, h7⟩ :=
                ih (i + 1) _ hrest r hr
              exact ⟨i', raw', nc, st', a, h1, by omega, h3, h4, h5, h6, h7⟩
            | some a =>
              rw [hst] at h
              simp only at h
              by_cases hz : a = 0
              · rw [if_neg (by simp [hz])] at h
                cases Except.ok.inj h
                obtain ⟨i', raw', nc, st', a', h1, h2, h3, h4, h5, h6, h7⟩ :=
                  ih (i + 1) _ hrest r hr
                exact ⟨i', raw', nc, st', a', h1, by omega, h3, h4, h5, h6, h7⟩
              · rw [if_pos (by simp [hz])] at h
                cases Except.ok.inj h
                rcases List.mem_cons.mp hr with hr | hr
                · exact ⟨i, raw, numCap, st, a, hg, le_refl i, hA, hl, hst, hz, hr⟩
                · obtain ⟨i', raw', nc, st', a', h1, h2, h3, h4, h5, h6, h7⟩ :=
                    ih (i + 1) _ hrest r hr
                  exact ⟨i', raw', nc, st', a', h1, by omega, h3, h4, h5, h6, h7⟩

/-- If the omniturm lookahead returned an area, some window line carried
    an NGF token, a split NGF label, or a Schacht token with its area two
    lines below — with no room anchor on the lines before it. -/
theorem oLoop_found (lines : List String) :
    ∀ fuel j nm0 nm a, oLoop lines fuel j nm0 = Except.ok (nm, some a) →
      ∃ k, j ≤ k ∧ k < j + fuel ∧ k < lines.length ∧ oAreaTokAt lines k = true ∧
        ∀ m, j ≤ m → m < k → oAnchorAt lines m = false := by
  intro fuel
  induction fuel with
  | zero =>
    intro j nm0 nm a h
    rw [oLoop] at h
    simp at h
  | succ fuel ih =>
    intro j nm0 nm a h
    rw [oLoop] at h
    cases hg : lines.get? j with
    | none => simp only [hg] at h; simp at h
    | some raw =>
      simp only [hg] at h
      cases hb : oAnchorB (pstrip raw).data with
      | true => rw [if_pos hb] at h; simp at h
      | false =>
        rw [if_neg (by simp [hb])] at h
        cases hn : oNgf (pstrip raw).data with
        | some cap =>
          simp only [hn] at h
          refine ⟨j, le_refl j, by omega, get?_lt lines j raw hg, ?_, by omega⟩
          unfold oAreaTokAt
          rw [hg]
          simp [hn]
        | none =>
          simp only [hn] at h
          cases hs : (if pstrip raw = "NGF:" then
                        match lines.get? (j + 1) with
                        | some nxt => lValue (pstrip nxt).data
                        | none => none
                      else none) with
          | some cap =>
            simp only [hs] at h
            refine ⟨j, le_refl j, by omega, get?_lt lines j raw hg, ?_, by omega⟩
            by_cases hf : pstrip raw = "NGF:"
            · rw [if_pos hf] at hs
              cases hnx : lines.get? (j + 1) with
              | none => rw [hnx] at hs; exact Option.noConfusion hs
              | some nxt =>
                rw [hnx] at hs
                change lValue (pstrip nxt).data = some cap at hs
                unfold oAreaTokAt
                rw [hg, hnx]
                simp [hf, hs]
            · rw [if_neg hf] at hs; exact Option.noConfusion hs
          | none =>
            simp only [hs] at h
            cases hsc : oSchacht (pstrip raw).data with
            | some g1 =>
              simp only [hsc] at h
              cases hji : lines.get? (j + 2) with
              | some areaRaw =>
                simp only [hji] at h
                cases hv : hValue (pstrip areaRaw).data with
                | some cap =>
                  simp only [hv] at h
                  refine ⟨j, le_refl j, by omega, get?_lt lines j raw hg, ?_, by omega⟩
                  unfold oAreaTokAt
                  rw [hg, hji]
                  simp [hsc, hv]
                | none =>
                  simp only [hv] at h
                  obtain ⟨k, hk1, hk2, hk3, hk4, hk5⟩ := ih (j + 1) _ nm a h
                  refine ⟨k, by omega, by omega, hk3, hk4, ?_⟩
                  intro m hm1 hm2
                  rcases Nat.eq_or_lt_of_le hm1 with hm | hm
                  · subst hm
                    unfold oAnchorAt
                    rw [hg]
                    exact hb
                  · exact hk5 m hm hm2
              | none =>
                simp only [hji] at h
                obtain ⟨k, hk1, hk2, hk3, hk4, hk5⟩ := ih (j + 1) _ nm a h
                refine ⟨k, by omega, by omega, hk3, hk4, ?_⟩
                intro m hm1 hm2
                rcases Nat.eq_or_lt_of_le hm1 with hm | hm
                · subst hm
                  unfold oAnchorAt
                  rw [hg]
                  exact hb
                · exact hk5 m hm hm2
            | none =>
              simp only [hsc] at h
              obtain ⟨k, hk1, hk2, hk3, hk4, hk5⟩ := ih (j + 1) _ nm a h
              refine ⟨k, by omega, by omega, hk3, hk4, ?_⟩
              intro m hm1 hm2
              rcases Nat.eq_or_lt_of_le hm1 with hm | hm
              · subst hm
                unfold oAnchorAt
                rw [hg]
                exact hb
              · exact hk5 m hm hm2

/-- Every room of the omniturm scan comes from an unvisited anchor line
    whose lookahead produced a nonzero area. -/
theorem oGo_sound (lines : List String) (page : ℕ) :
    ∀ fuel i processed rooms, oGo lines page fuel i processed = Except.ok rooms →
      ∀ r ∈ rooms, ∃ i' raw nm a, lines.get? i' = some raw ∧ i ≤ i' ∧
        oAnchorB (pstrip raw).data = true ∧
        oLoop lines (min lines.length (i' + 15) - (i' + 1)) (i' + 1) none =
          Except.ok (nm, some a) ∧ a ≠ 0 ∧
        r = oMkRoom (pstrip raw) nm a page := by
  intro fuel
  induction fuel with
  | zero =>
    intro i processed rooms h r hr
    rw [oGo] at h
    cases Except.ok.inj h
    simp at hr
  | succ fuel ih =>
    intro i processed rooms h r hr
    rw [oGo] at h
    cases hg : lines.get? i with
    | none =>
      simp only [hg] at h
      cases Except.ok.inj h
      simp at hr
    | some raw =>
      simp only [hg] at h
      by_cases hb : (oAnchorB (pstrip raw).data && !processed.contains (pstrip raw)) = true
      · rw [if_pos hb] at h
        cases hl : oLoop lines (min lines.length (i + 15) - (i + 1)) (i + 1) none with
        | error e => simp only [hl] at h; exact Except.noConfusion h
        | ok res =>
          simp only [hl] at h
          obtain ⟨nm, areaOpt⟩ := res
          cases areaOpt with
          | none =>
            simp only at h
            obtain ⟨i', raw', nm', a, h1, h2, h3, h4, h5, h6⟩ :=
              ih (i + 1) processed rooms h r hr
            exact ⟨i', raw', nm', a, h1, by omega, h3, h4, h5, h6⟩
          | some a =>
            simp only at h
            by_cases hz : a = 0
            · rw [if_neg (by simp [hz])] at h
              obtain ⟨i', raw', nm', a', h1, h2, h3, h4, h5, h6⟩ :=
                ih (i + 1) processed rooms h r hr
              exact ⟨i', raw', nm', a', h1, by omega, h3, h4, h5, h6⟩
            · rw [if_pos (by simp [hz])] at h
              cases hrest : oGo lines page fuel (i + 1) (pstrip raw :: processed) with
              | error e => rw [hrest] at h; exact Except.noConfusion h
              | ok rest =>
                rw [hrest] at h
                simp only at h
                cases Except.ok.inj h
                rcases List.mem_cons.mp hr with hr | hr
                · exact ⟨i, raw, nm, a, hg, le_refl i,
                    (Bool.and_eq_true _ _ ▸ hb).1, hl, hz, hr⟩
                · obtain ⟨i', raw', nm', a', h1, h2, h3, h4, h5, h6⟩ :=
                    ih (i + 1) _ _ hrest r hr
                  exact ⟨i', raw', nm', a', h1, by omega, h3, h4, h5, h6⟩
      · rw [if_neg hb] at h
        obtain ⟨i', raw', nm', a, h1, h2, h3, h4, h5, h6⟩ :=
          ih (i + 1) processed rooms h r hr
        exact ⟨i', raw', nm', a, h1, by omega, h3, h4, h5, h6⟩

/-! ### Lemmas about the generic extractor's greedy assignment -/

/-- The running best distance never increases. -/
theorem findBestGo_le (used : List ℕ) (rIdx : ℕ) :
    ∀ (l : List AreaInfo) (k0 : ℕ) (best : Option (ℚ × ℕ)) (d : ℚ) (k : ℕ),
      findBestGo used rIdx l k0 best = some (d, k) →
      ∀ bd bk, best = some (bd, bk) → d ≤ bd := by
  intro l
  induction l with
  | nil =>
    intro k0 best d k h bd bk hbest
    rw [findBestGo] at h
    rw [hbest] at h
    cases Option.some.inj h
    exact le_refl _
  | cons a rest ih =>
    intro k0 best d k h bd bk hbest
    rw [findBestGo] at h
    by_cases hu : used.contains k0 = true
    · rw [if_pos hu] at h
      exact ih (k0 + 1) best d k h bd bk hbest
    · rw [if_neg hu] at h
      subst hbest
      by_cases hbet : (gBetter (some (bd, bk)) (gDist a.line_idx rIdx) &&
          decide (gDist a.line_idx rIdx < 15)) = true
      · rw [if_pos hbet] at h
        have h1 := ih (k0 + 1) _ d k h (gDist a.line_idx rIdx) k0 rfl
        have h2 : gDist a.line_idx rIdx < bd := by
          have := (Bool.and_eq_true _ _ ▸ hbet).1
          simpa [gBetter] using this
        linarith
      · rw [if_neg hbet] at h
        exact ih (k0 + 1) _ d k h bd bk rfl

/-- A chosen area is either the incoming best or an unused in-window
    element of the traversed list. -/
theorem findBestGo_mem (used : List ℕ) (rIdx : ℕ) :
    ∀ (l : List AreaInfo) (k0 : ℕ) (best : Option (ℚ × ℕ)) (d : ℚ) (k : ℕ),
      findBestGo used rIdx l k0 best = some (d, k) →
      best = some (d, k) ∨
      ∃ idx a, l.get? idx = some a ∧ k = k0 + idx ∧ used.contains k = false ∧
        d = gDist a.line_idx rIdx ∧ d < 15 := by
  intro l
  induction l with
  | nil =>
    intro k0 best d k h
    rw [findBestGo] at h
    exact Or.inl h
  | cons a rest ih =>
    intro k0 best d k h
    rw [findBestGo] at h
    by_cases hu : used.contains k0 = true
    · rw [if_pos hu] at h
      rcases ih (k0 + 1) best d k h with hL | ⟨idx, a', h1, h2, h3, h4, h5⟩
      · exact Or.inl hL
      · exact Or.inr ⟨idx + 1, a', by simpa using h1, by omega, h3, h4, h5⟩
    · rw [if_neg hu] at h
      by_cases hbet : (gBetter best (gDist a.line_idx rIdx) &&
          decide (gDist a.line_idx rIdx < 15)) = true
      · rw [if_pos hbet] at h
        rcases ih (k0 + 1) _ d k h with hL | ⟨idx, a', h1, h2, h3, h4, h5⟩
        · cases Option.some.inj hL
          refine Or.inr ⟨0, a, rfl, by omega, by simpa using hu, rfl, ?_⟩
          exact of_decide_eq_true (Bool.and_eq_true _ _ ▸ hbet).2
        · exact Or.inr ⟨idx + 1, a', by simpa using h1, by omega, h3, h4, h5⟩
      · rw [if_neg hbet] at h
        rcases ih (k0 + 1) best d k h with hL | ⟨idx, a', h1, h2, h3, h4, h5⟩
        · exact Or.inl hL
        · exact Or.inr ⟨idx + 1, a', by simpa using h1, by omega, h3, h4, h5⟩

/-- The chosen distance is minimal over all unused eligible candidates of
    the traversed list. -/
theorem findBestGo_min (used : List ℕ) (rIdx : ℕ) :
    ∀ (l : List AreaInfo) (k0 : ℕ) (best : Option (ℚ × ℕ)) (d : ℚ) (k : ℕ),
      findBestGo used rIdx l k0 best = some (d, k) →
      ∀ idx a, l.get? idx = some a → used.contains (k0 + idx) = false →
        gDist a.line_idx rIdx < 15 → d ≤ gDist a.line_idx rIdx := by
  intro l
  induction l with
  | nil =>
    intro k0 best d k h idx a hget
    simp at hget
  | cons a rest ih =>
    intro k0 best d k h idx a' hget hun hd15
    rw [findBestGo] at h
    cases idx with
    | zero =>
      cases Option.some.inj hget
      have hun' : used.contains k0 = false := by simpa using hun
      rw [if_neg (by rw [hun']; simp)] at h
      by_cases hbet : (gBetter best (gDist a.line_idx rIdx) &&
          decide (gDist a.line_idx rIdx < 15)) = true
      · rw [if_pos hbet] at h
        exact findBestGo_le used rIdx rest (k0 + 1) _ d k h (gDist a.line_idx rIdx) k0 rfl
      · rw [if_neg hbet] at h
        cases best with
        | none =>
          exfalso
          exact hbet (by simp [gBetter, decide_eq_true hd15])
        | some bdk =>
          have hge : bdk.1 ≤ gDist a.line_idx rIdx := by
            by_contra hlt
            push_neg at hlt
            exact hbet (by simp [gBetter, decide_eq_true hlt, decide_eq_true hd15])
          have hdle := findBestGo_le used rIdx rest (k0 + 1) _ d k h bdk.1 bdk.2 rfl
          linarith
    | succ idx =>
      by_cases hu : used.contains k0 = true
      · rw [if_pos hu] at h
        exact ih (k0 + 1) best d k h idx a' (by simpa using hget)
          (by rw [show k0 + 1 + idx = k0 + (idx + 1) by omega]; exact hun) hd15
      · rw [if_neg hu] at h
        by_cases hbet : (gBetter best (gDist a.line_idx rIdx) &&
            decide (gDist a.line_idx rIdx < 15)) = true
        · rw [if_pos hbet] at h
          exact ih (k0 + 1) _ d k h idx a' (by simpa using hget)
            (by rw [show k0 + 1 + idx = k0 + (idx + 1) by omega]; exact hun) hd15
        · rw [if_neg hbet] at h
          exact ih (k0 + 1) best d k h idx a' (by simpa using hget)
            (by rw [show k0 + 1 + idx = k0 + (idx + 1) by omega]; exact hun) hd15

/-- contains = false excludes membership. -/
theorem not_mem_of_contains_false (l : List ℕ) (a : ℕ) (h : l.contains a = false) :
    a ∉ l := by
  intro hm
  have ht : List.elem a l = true := List.elem_iff.mpr hm
  unfold List.contains at h
  rw [ht] at h
  exact Bool.noConfusion h

/-- Pass three never assigns an already-used area, and never assigns the
    same area twice (the consumption invariant). -/
theorem gAssignPairs_facts (areas : List AreaInfo) :
    ∀ ids used,
      (∀ p ∈ gAssignPairs areas ids used, p.2 ∉ used) ∧
      ((gAssignPairs areas ids used).map (fun p => p.2)).Nodup := by
  intro ids
  induction ids with
  | nil => intro used; exact ⟨by simp [gAssignPairs], by simp [gAssignPairs]⟩
  | cons ridp ids ih =>
    intro used
    rw [gAssignPairs]
    cases hf : findBestGo used ridp.2 areas 0 none with
    | none => exact ih used
    | some dk =>
      have hknotu : used.contains dk.2 = false := by
        rcases findBestGo_mem used ridp.2 areas 0 none dk.1 dk.2 (by rw [hf]) with
          hL | ⟨idx, a, _, _, h3, _, _⟩
        · exact Option.noConfusion hL
        · exact h3
      constructor
      · intro p hp
        rcases List.mem_cons.mp hp with rfl | hp
        · exact not_mem_of_contains_false used dk.2 hknotu
        · intro hmem
          exact (ih (dk.2 :: used)).1 p hp (List.mem_cons_of_mem _ hmem)
      · rw [List.map_cons, List.nodup_cons]
        constructor
        · intro hmem
          obtain ⟨p, hp, hpe⟩ := List.mem_map.mp hmem
          exact (ih (dk.2 :: used)).1 p hp (by rw [hpe]; exact List.mem_cons_self _ _)
        · exact (ih (dk.2 :: used)).2

/-- Every assignment of pass three points into the area pool, within the
    adjusted eligibility threshold. -/
theorem gAssignPairs_in (areas : List AreaInfo) :
    ∀ ids used p, p ∈ gAssignPairs areas ids used →
      ∃ a, areas.get? p.2 = some a ∧ gDist a.line_idx p.1.2 < 15 := by
  intro ids
  induction ids with
  | nil => intro used p hp; simp [gAssignPairs] at hp
  | cons ridp ids ih =>
    intro used p hp
    rw [gAssignPairs] at hp
    cases hf : findBestGo used ridp.2 areas 0 none with
    | none =>
      rw [hf] at hp
      exact ih used p hp
    | some dk =>
      rw [hf] at hp
      rcases List.mem_cons.mp hp with rfl | hp
      · rcases findBestGo_mem used ridp.2 areas 0 none dk.1 dk.2 (by rw [hf]) with
          hL | ⟨idx, a, h1, h2, _, h4, h5⟩
        · exact Option.noConfusion hL
        · exact ⟨a, by rw [show (ridp, dk.2).2 = 0 + idx from h2]; simpa using h1,
            by rw [← h4]; exact h5⟩
      · exact ih (dk.2 :: used) p hp

/-- Every pooled area of pass one lies in the plausibility range. -/
theorem findAreas_range (lines : List String) :
    ∀ a ∈ findAreas lines, (1 : ℚ)/2 ≤ a.area ∧ a.area ≤ 10000 := by
  intro a ha
  unfold findAreas at ha
  obtain ⟨p, hp, hpe⟩ := List.mem_filterMap.mp ha
  revert hpe
  cases hm : gAreaMatch (pstrip p.2).data with
  | none => intro hpe; simp [hm] at hpe
  | some capPat =>
    intro hpe
    simp only [hm] at hpe
    cases hparse : parse_german_number (String.mk capPat.1) with
    | none => rw [hparse] at hpe; exact Option.noConfusion hpe
    | some v =>
      rw [hparse] at hpe
      have hpe' : (if (1 : ℚ)/2 ≤ v ∧ v ≤ 10000 then
          some (⟨p.1, v, pstrip p.2, capPat.2⟩ : AreaInfo) else none) = some a := hpe
      by_cases hrange : (1 : ℚ)/2 ≤ v ∧ v ≤ 10000
      · rw [if_pos hrange] at hpe'
        cases Option.some.inj hpe'
        exact hrange
      · rw [if_neg hrange] at hpe'
        exact Option.noConfusion hpe'

/-- The area value of every generic room comes from a pooled area. -/
theorem extract_generic_area_mem (lines : List String) (page : ℕ) :
    ∀ r ∈ extract_generic lines page, ∃ a ∈ findAreas lines, r.area_m2 = a.area := by
  intro r hr
  unfold extract_generic at hr
  obtain ⟨p, hp, hpe⟩ := List.mem_map.mp hr
  obtain ⟨a, hget, _⟩ := gAssignPairs_in (findAreas lines) (findIds lines) [] p hp
  refine ⟨a, List.get?_mem hget, ?_⟩
  rw [← hpe]
  unfold gMkRoom
  simp only
  rw [List.getD_eq_getElem?_getD, ← List.get?_eq_getElem?, hget]
  rfl

/-! ### Claims C2, C6, C7, C10 (amended statements) -/

/-- Every haardtring room satisfies the counting-factor policy. -/
theorem hMkRoom_policy (num : String) (name : Option String) (f : HFound) (page : ℕ) :
    ((hMkRoom num name f page).factor_source = some "explicit_50%" ∧
      (hMkRoom num name f page).factor = 1/2) ∨
    ((hMkRoom num name f page).factor_source = some "default_outdoor" ∧
      (hMkRoom num name f page).factor = 1/2 ∧
      (hMkRoom num name f page).counted_m2 =
        round2 ((hMkRoom num name f page).area_m2 * (1/2)) ∧
      (hMkRoom num name f page).category = RoomCategory.OUTDOOR) ∨
    ((hMkRoom num name f page).factor_source = none ∧
      (hMkRoom num name f page).factor = 1 ∧
      (hMkRoom num name f page).counted_m2 = (hMkRoom num name f page).area_m2 ∧
      (hMkRoom num name f page).category ≠ RoomCategory.OUTDOOR) := by
  unfold hMkRoom
  by_cases h1 : pyTruthyQ f.balcony = true
  · rw [if_pos h1]
    exact Or.inl ⟨rfl, rfl⟩
  · rw [if_neg h1]
    by_cases h2 : (pyTruthyS name && is_outdoor_room (name.getD "")) = true
    · rw [if_pos h2]
      refine Or.inr (Or.inl ⟨rfl, rfl, rfl, ?_⟩)
      have h3 := (Bool.and_eq_true _ _ ▸ h2).2
      unfold is_outdoor_room at h3
      exact eq_of_beq h3
    · rw [if_neg h2]
      refine Or.inr (Or.inr ⟨rfl, rfl, rfl, ?_⟩)
      show categorize_room (name.getD "") ≠ RoomCategory.OUTDOOR
      intro hout
      cases hn : name with
      | none =>
        rw [hn] at hout
        simp only [Option.getD_none] at hout
        exact absurd hout (by decide)
      | some s =>
        rw [hn] at hout
        simp only [Option.getD_some] at hout
        by_cases hs : s = ""
        · subst hs; exact absurd hout (by decide)
        · apply h2
          rw [hn]
          simp only [Option.getD_some]
          rw [Bool.and_eq_true]
          refine ⟨by simp [pyTruthyS, hs], ?_⟩
          unfold is_outdoor_room
          rw [hout]
          decide

/-- C2 (amended): only the haardtring extractor applies the counting-factor
    policy — explicit 50% override, else the 0.5 default for rooms whose
    category resolves to outdoor, else factor 1 — while the leiq and
    omniturm extractors always emit factor 1.0 with counted_m2 = area_m2;
    the override scenario behaves as specified. -/
theorem c2_amended :
    (∀ lines page rooms, extract_haardtring lines page = Except.ok rooms →
      ∀ r ∈ rooms,
        (r.factor_source = some "explicit_50%" ∧ r.factor = 1/2) ∨
        (r.factor_source = some "default_outdoor" ∧ r.factor = 1/2 ∧
          r.counted_m2 = round2 (r.area_m2 * (1/2)) ∧
          r.category = RoomCategory.OUTDOOR) ∨
        (r.factor_source = none ∧ r.factor = 1 ∧ r.counted_m2 = r.area_m2 ∧
          r.category ≠ RoomCategory.OUTDOOR)) ∧
    (∀ lines page rooms, extract_leiq lines page = Except.ok rooms →
      ∀ r ∈ rooms, r.factor = 1 ∧ r.counted_m2 = r.area_m2 ∧ r.factor_source = none) ∧
    (∀ lines page rooms, extract_omniturm lines page = Except.ok rooms →
      ∀ r ∈ rooms, r.factor = 1 ∧ r.counted_m2 = r.area_m2 ∧ r.factor_source = none) ∧
    extract_haardtring ["R1A", "Balkon", "F: 10,00 m²", "50%: 5,00 m²"] 0 =
      Except.ok [{ room_number := "R1A", room_name := "Balkon", area_m2 := 10,
                   counted_m2 := 5, factor := 1/2, page := 0, source_text := "F: 10.0",
                   category := .OUTDOOR, factor_source := some "explicit_50%",
                   extraction_pattern := "F:" }] := by
  refine ⟨?_, ?_, ?_, by decide⟩
  · intro lines page rooms h r hr
    obtain ⟨i', raw, num, f, h1, h2, h3, h4, h5, h6⟩ :=
      hGo_sound lines page lines.length 0 rooms h r hr
    rw [h6]
    exact hMkRoom_policy num (hName lines (i' + 1)) f page
  · intro lines page rooms h r hr
    obtain ⟨i', raw, nc, st, a, h1, h2, h3, h4, h5, h6, h7⟩ :=
      lGo_sound lines page lines.length 0 rooms h r hr
    rw [h7]
    exact ⟨rfl, rfl, rfl⟩
  · intro lines page rooms h r hr
    obtain ⟨i', raw, nm, a, h1, h2, h3, h4, h5, h6⟩ :=
      oGo_sound lines page lines.length 0 [] rooms h r hr
    rw [h6]
    exact ⟨rfl, rfl, rfl⟩

/-- Witness for c2_amended at the override scenario. -/
theorem c2_amended_witness :
    (c2room.factor_source = some "explicit_50%" ∧ c2room.factor = 1/2) ∨
    (c2room.factor_source = some "default_outdoor" ∧ c2room.factor = 1/2 ∧
      c2room.counted_m2 = round2 (c2room.area_m2 * (1/2)) ∧
      c2room.category = RoomCategory.OUTDOOR) ∨
    (c2room.factor_source = none ∧ c2room.factor = 1 ∧
      c2room.counted_m2 = c2room.area_m2 ∧
      c2room.category ≠ RoomCategory.OUTDOOR) :=
  c2_amended.1 ["R1A", "Balkon", "F: 10,00 m²", "50%: 5,00 m²"] 0 [c2room]
    (by decide) c2room (List.mem_singleton.mpr rfl)

/-- C10 (amended): every emitted room of the four extractors has a nonzero
    area — a zero-parsing area token yields no record, though the lookahead
    still stops at it rather than continuing as for a missing area — and
    the generic extractor only emits areas inside [0.5, 10000]. -/
theorem c10_amended :
    (∀ lines page rooms, extract_haardtring lines page = Except.ok rooms →
      ∀ r ∈ rooms, r.area_m2 ≠ 0) ∧
    (∀ lines page rooms, extract_leiq lines page = Except.ok rooms →
      ∀ r ∈ rooms, r.area_m2 ≠ 0) ∧
    (∀ lines page rooms, extract_omniturm lines page = Except.ok rooms →
      ∀ r ∈ rooms, r.area_m2 ≠ 0) ∧
    (∀ lines page, ∀ r ∈ extract_generic lines page,
      (1 : ℚ)/2 ≤ r.area_m2 ∧ r.area_m2 ≤ 10000) ∧
    extract_haardtring ["R1A", "Balkon", "F: 0,00 m²"] 0 = Except.ok [] := by
  refine ⟨?_, ?_, ?_, ?_, by decide⟩
  · intro lines page rooms h r hr
    obtain ⟨i', raw, num, f, h1, h2, h3, h4, h5, h6⟩ :=
      hGo_sound lines page lines.length 0 rooms h r hr
    rw [h6]
    have harea : (hMkRoom num (hName lines (i' + 1)) f page).area_m2 = f.area := by
      unfold hMkRoom
      split_ifs <;> rfl
    rw [harea]
    exact h5
  · intro lines page rooms h r hr
    obtain ⟨i', raw, nc, st, a, h1, h2, h3, h4, h5, h6, h7⟩ :=
      lGo_sound lines page lines.length 0 rooms h r hr
    rw [h7]
    exact h6
  · intro lines page rooms h r hr
    obtain ⟨i', raw, nm, a, h1, h2, h3, h4, h5, h6⟩ :=
      oGo_sound lines page lines.length 0 [] rooms h r hr
    rw [h6]
    exact h5
  · intro lines page r hr
    obtain ⟨a, ha, he⟩ := extract_generic_area_mem lines page r hr
    rw [he]
    exact findAreas_range lines a ha

/-- Witness for c10_amended: the leiq part at a concrete page. -/
theorem c10_amended_witness : c10room.area_m2 ≠ 0 :=
  c10_amended.2.1 ["B.00.2.002", "Büro", "NRF: 12,34 m2"] 0 [c10room] (by decide)
    c10room (List.mem_singleton.mpr rfl)

/-- C7 (amended): a style-extractor room record arises only from an anchor
    whose lookahead matched an area source within the 14 following lines,
    with no stop line in between — where the haardtring stop test requires
    the whole line to be a simple R identifier (a line merely starting with
    one does not stop the lookahead), and the omniturm area source may also
    be a Schacht token with its value two lines below. -/
theorem c7_amended :
    (∀ lines page rooms, extract_haardtring lines page = Except.ok rooms →
      ∀ r ∈ rooms, ∃ i k, hAnchorAt lines i = true ∧ i + 1 ≤ k ∧ k ≤ i + 14 ∧
        k < lines.length ∧ hAreaTokAt lines k = true ∧
        ∀ m, i + 1 ≤ m → m < k → hStopAt lines m = false) ∧
    (∀ lines page rooms, extract_leiq lines page = Except.ok rooms →
      ∀ r ∈ rooms, ∃ i k, lAnchorAt lines i = true ∧ i + 1 ≤ k ∧ k ≤ i + 14 ∧
        k < lines.length ∧ lAreaTokAt lines k = true ∧
        ∀ m, i + 1 ≤ m → m < k → lAnchorAt lines m = false) ∧
    (∀ lines page rooms, extract_omniturm lines page = Except.ok rooms →
      ∀ r ∈ rooms, ∃ i k, oAnchorAt lines i = true ∧ i + 1 ≤ k ∧ k ≤ i + 14 ∧
        k < lines.length ∧ oAreaTokAt lines k = true ∧
        ∀ m, i + 1 ≤ m → m < k → oAnchorAt lines m = false) := by
  refine ⟨?_, ?_, ?_⟩
  · intro lines page rooms h r hr
    obtain ⟨i', raw, num, f, h1, h2, h3, h4, h5, h6⟩ :=
      hGo_sound lines page lines.length 0 rooms h r hr
    obtain ⟨k, hk1, hk2, hk3, hk4, hk5⟩ := hFindArea_found lines _ _ _ h4
    have hilen : i' < lines.length := get?_lt lines i' raw h1
    refine ⟨i', k, ?_, hk1, by omega, hk3, hk4, hk5⟩
    unfold hAnchorAt
    rw [h1]
    change (hAnchor (pstrip raw).data).isSome = true
    rw [h3]
    rfl
  · intro lines page rooms h r hr
    obtain ⟨i', raw, nc, st, a, h1, h2, h3, h4, h5, h6, h7⟩ :=
      lGo_sound lines page lines.length 0 rooms h r hr
    rcases lLoop_area lines _ _ _ _ h4 (by rw [h5]; rfl) with hL | ⟨k, hk1, hk2, hk3, hk4, hk5⟩
    · exact absurd hL (by simp)
    · have hilen : i' < lines.length := get?_lt lines i' raw h1
      refine ⟨i', k, ?_, hk1, by omega, hk3, hk4, hk5⟩
      unfold lAnchorAt
      rw [h1]
      change (lAnchor (pstrip raw).data).isSome = true
      rw [h3]
      rfl
  · intro lines page rooms h r hr
    obtain ⟨i', raw, nm, a, h1, h2, h3, h4, h5, h6⟩ :=
      oGo_sound lines page lines.length 0 [] rooms h r hr
    obtain ⟨k, hk1, hk2, hk3, hk4, hk5⟩ := oLoop_found lines _ _ _ _ _ h4
    have hilen : i' < lines.length := get?_lt lines i' raw h1
    refine ⟨i', k, ?_, hk1, by omega, hk3, hk4, hk5⟩
    unfold oAnchorAt
    rw [h1]
    change oAnchorB (pstrip raw).data = true
    exact h3

/-- Witness for c7_amended: the haardtring part on the override page. -/
theorem c7_amended_witness :
    ∃ i k, hAnchorAt ["R1A", "Balkon", "F: 10,00 m²", "50%: 5,00 m²"] i = true ∧
      i + 1 ≤ k ∧ k ≤ i + 14 ∧
      k < (["R1A", "Balkon", "F: 10,00 m²", "50%: 5,00 m²"] : List String).length ∧
      hAreaTokAt ["R1A", "Balkon", "F: 10,00 m²", "50%: 5,00 m²"] k = true ∧
      ∀ m, i + 1 ≤ m → m < k →
        hStopAt ["R1A", "Balkon", "F: 10,00 m²", "50%: 5,00 m²"] m = false :=
  c7_amended.1 ["R1A", "Balkon", "F: 10,00 m²", "50%: 5,00 m²"] 0 [c2room]
    (by decide) c2room (List.mem_singleton.mpr rfl)

/-- C6 (amended): pass three of the generic extractor assigns greedily in
    identifier discovery order: an area index once assigned is never in the
    used set and never repeats; the chosen area of each step is an unused
    pool entry minimizing the bonus-adjusted distance among all unused
    entries within the adjusted threshold (under 15 after the 0.5 bonus for
    areas below the identifier, i.e. up to 14 lines before or 15 lines
    after); and the first-discovered identifier consumes an area that a
    later, textually closer identifier then cannot get. -/
theorem c6_amended :
    (∀ (areas : List AreaInfo) (ids : List (String × ℕ)) (used : List ℕ),
      (∀ p ∈ gAssignPairs areas ids used, p.2 ∉ used) ∧
      ((gAssignPairs areas ids used).map (fun p => p.2)).Nodup) ∧
    (∀ (areas : List AreaInfo) (used : List ℕ) (rIdx : ℕ) (d : ℚ) (k : ℕ),
      findBestGo used rIdx areas 0 none = some (d, k) →
      (∃ a, areas.get? k = some a ∧ d = gDist a.line_idx rIdx ∧
        used.contains k = false ∧ d < 15) ∧
      (∀ m a, areas.get? m = some a → used.contains m = false →
        gDist a.line_idx rIdx < 15 → d ≤ gDist a.line_idx rIdx)) ∧
    findIds ["B.001", "", "", "", "", "NRF: 7,00 m2", "C.002"] =
      [("B.001", 0), ("C.002", 6)] ∧
    (extract_generic ["B.001", "", "", "", "", "NRF: 7,00 m2", "C.002"] 0).map
      (fun r => (r.room_number, r.area_m2)) = [("B.001", 7)] := by
  refine ⟨gAssignPairs_facts, ?_, by decide, by decide⟩
  intro areas used rIdx d k h
  constructor
  · rcases findBestGo_mem used rIdx areas 0 none d k h with hL | ⟨idx, a, h1, h2, h3, h4, h5⟩
    · exact Option.noConfusion hL
    · exact ⟨a, by rw [h2]; simpa using h1, h4, h3, h5⟩
  · intro m a hget hun hd15
    exact findBestGo_min used rIdx areas 0 none d k h m a hget (by simpa using hun) hd15

/-- Witness for c6_amended: the best-choice part at a concrete pool. -/
theorem c6_amended_witness :
    (∃ a, ([⟨2, 10, "NRF: 10,00 m2", "p"⟩] : List AreaInfo).get? 0 = some a ∧
      (1 : ℚ)/2 = gDist a.line_idx 1 ∧ ([] : List ℕ).contains 0 = false ∧
      (1 : ℚ)/2 < 15) ∧
    (∀ m a, ([⟨2, 10, "NRF: 10,00 m2", "p"⟩] : List AreaInfo).get? m = some a →
      ([] : List ℕ).contains m = false → gDist a.line_idx 1 < 15 →
      (1 : ℚ)/2 ≤ gDist a.line_idx 1) :=
  c6_amended.2.1 [⟨2, 10, "NRF: 10,00 m2", "p"⟩] [] 1 (1/2) 0 (by decide)

end AreaExtractor
